import Mathlib

/-!
FreeTouchDeck `DrawHelper.cpp`: font registry, error presenter, colour codec.

A shallow embedding of `src/DrawHelper.cpp`.

* Global variables (`FontsList`, `CurrentFont`, `DefaultFont`, the function-local
  `static bool initialized` of `displayInit`) are fields of `Globals`; every
  function that touches them takes and returns a `Globals`.
* Calls into external collaborators (TFT driver, logger at error level,
  navigation, `delay`, `yield`, `ESP.restart`) are appended to `Globals.trace`,
  in program order.  Verbose/debug/info log lines are not recorded.
* `const GFXfont *` is an address (`Nat`); `const char *` is
  `Option (List Char)` (`none` is the null pointer, the list holds the
  characters before the terminating NUL).
* `unsigned long` / `unsigned int` are 32 bits wide on the target (ESP32);
  values are `Nat`, and wrap-around is written explicitly where it can occur.
* A `std::list` iterator is the index of the node it points at; `end()` is the
  index `length`.  The list is the circular doubly-linked list of libstdc++:
  the sentinel node `end()` is both the predecessor of `begin()` and the
  successor of the last node.
-/

namespace FreeTouchDeck

/-! ## Data model -/

/-- Address of a `GFXfont` object (`const GFXfont *`). -/
abbrev FontPtr := Nat

/-- Calls issued to the external collaborators, in program order. -/
inductive Call where
  | tftInit
  | setRotation (r : Nat)
  | fillScreen (color : Nat)
  | setFreeFont (f : FontPtr)
  | setTextSize (n : Nat)
  | setCursor (x y : Nat)
  | setTextColor (fg bg : Nat)
  | println (text : String)
  | setActiveScreen (name : String)
  | logE (module text : String)
  | delay (ms : Nat)
  | yield
  | restart
  deriving DecidableEq, Repr

/-- Objects and settings declared in headers that are not part of this file:
the three font objects pushed by `InitFontsTable`, the `LABEL_FONT` macro, the
configured screen rotation and the driver's `fontHeight()` answer (which
depends on the calls the driver has received so far). -/
structure Env where
  TomThumb : FontPtr
  FreeSansBold9pt7b : FontPtr
  FreeSansBold12pt7b : FontPtr
  LABEL_FONT : FontPtr
  screenrotation : Nat
  fontHeight : List Call → Nat

/-- The file-scope variables of `DrawHelper.cpp`, plus the record of external
calls. `CurrentFont` and `DefaultFont` start as `LABEL_FONT`, `FontsList`
empty, `initialized` false. -/
structure Globals where
  FontsList : List FontPtr
  CurrentFont : FontPtr
  DefaultFont : FontPtr
  initialized : Bool
  trace : List Call
  deriving DecidableEq, Repr

/-- State at program start. -/
def Globals.initial (env : Env) : Globals :=
  { FontsList := [], CurrentFont := env.LABEL_FONT, DefaultFont := env.LABEL_FONT,
    initialized := false, trace := [] }

/-- Append one external call to the trace. -/
def Globals.emit (g : Globals) (c : Call) : Globals :=
  { g with trace := g.trace ++ [c] }

def TFT_BLACK : Nat := 0x0000
def TFT_WHITE : Nat := 0xFFFF

/-! ## `std::list` iterators -/

/-- The iterator `FontsList.begin()`. -/
def listBegin (_l : List FontPtr) : Nat := 0

/-- The iterator `FontsList.end()`. -/
def listEnd (l : List FontPtr) : Nat := l.length

/-- The step `++it`: the successor of the sentinel is the first node. -/
def iterInc (l : List FontPtr) (it : Nat) : Nat :=
  if it = l.length then 0 else it + 1

/-- The step `--it`: the predecessor of the first node is the sentinel. -/
def iterDec (l : List FontPtr) (it : Nat) : Nat :=
  if it = 0 then l.length else it - 1

/-- The call `std::advance(it, n)` on a bidirectional iterator: `n` increments
when `n ≥ 0`, `-n` decrements otherwise. -/
def advance (l : List FontPtr) (it : Nat) (n : Int) : Nat :=
  match n with
  | Int.ofNat k => (iterInc l)^[k] it
  | Int.negSucc k => (iterDec l)^[k + 1] it

/-- The dereference `*it`. Every call site guards it with `it != end()`; the
sentinel holds no font and reads as the null pointer here. -/
def deref (l : List FontPtr) (it : Nat) : FontPtr :=
  l.getD it 0

/-- The scan of `iterator_from_ptr(first, last, ptr)` over the nodes `rest` that
lie between `first` and `last`: the first position holding `ptr`, else `last`. -/
def iterator_from_ptr_scan : List FontPtr → Nat → FontPtr → Nat
  | [], first, _ => first
  | x :: rest, first, ptr =>
      if x = ptr then first else iterator_from_ptr_scan rest (first + 1) ptr

/-- The call `iterator_from_ptr(FontsList.begin(), FontsList.end(), ptr)`. -/
def iterator_from_ptr (l : List FontPtr) (ptr : FontPtr) : Nat :=
  iterator_from_ptr_scan l (listBegin l) ptr

/-! ## Font registry -/

def GetCurrentFont (g : Globals) : FontPtr :=
  g.CurrentFont

/-- Stores the pointer in `CurrentFont` and hands it to the driver. The C++
function `SetFont` has no `return` statement; no caller reads its result. -/
def SetFont (newFont : FontPtr) (g : Globals) : Globals :=
  { g with CurrentFont := newFont }.emit (Call.setFreeFont newFont)

def SetDefaultFont (g : Globals) : Globals :=
  SetFont g.DefaultFont g

def InitFontsTable (env : Env) (g : Globals) : Globals :=
  let g := { g with FontsList := g.FontsList ++ [env.TomThumb] }
  let g := { g with FontsList := g.FontsList ++ [env.FreeSansBold9pt7b] }
  let g := { g with FontsList := g.FontsList ++ [env.FreeSansBold12pt7b] }
  SetDefaultFont g

def SetSmallestFont (whichOne : Int) (g : Globals) : Globals :=
  let it := listBegin g.FontsList
  let it := advance g.FontsList it whichOne
  if it ≠ listEnd g.FontsList then
    SetFont (deref g.FontsList it) g
  else
    g

/-- The call `FontsList.back()` is `*--end()`: on a non-empty list the last
element, on an empty list the sentinel. -/
def SetLargestFont (g : Globals) : Globals :=
  SetFont (deref g.FontsList (iterDec g.FontsList (listEnd g.FontsList))) g

def SetSmallerFont (g : Globals) : Bool × Globals :=
  let newFont := iterator_from_ptr g.FontsList g.CurrentFont
  let newFont :=
    if newFont ≠ listEnd g.FontsList then advance g.FontsList newFont (-1) else newFont
  if newFont ≠ listEnd g.FontsList then
    (true, SetFont (deref g.FontsList newFont) g)
  else
    (false, g)

def SetLargerFont (g : Globals) : Bool × Globals :=
  let newFont := iterator_from_ptr g.FontsList g.CurrentFont
  let newFont :=
    if newFont ≠ listEnd g.FontsList then iterInc g.FontsList newFont else newFont
  if newFont ≠ listEnd g.FontsList then
    (true, SetFont (deref g.FontsList newFont) g)
  else
    (false, g)

/-- The catalog `[Small, Medium, Large]` of the specification's scenario, with
`Medium` current. -/
def scenarioRegistry : Globals :=
  { FontsList := [10, 20, 30], CurrentFont := 20, DefaultFont := 30,
    initialized := true, trace := [] }

/-- A sample environment: three distinct font addresses, `LABEL_FONT` the
largest, rotation 0, every line 8 pixels high. -/
def sampleEnv : Env :=
  { TomThumb := 1, FreeSansBold9pt7b := 2, FreeSansBold12pt7b := 3, LABEL_FONT := 3,
    screenrotation := 0, fontHeight := fun _ => 8 }

/-! ## Error presenter -/

def displayInit (env : Env) (g : Globals) : Globals :=
  if g.initialized then g
  else
    let g := { g with initialized := true }
    let g := g.emit Call.tftInit
    let g := g.emit (Call.setRotation env.screenrotation)
    let g := g.emit (Call.fillScreen TFT_BLACK)
    let g := InitFontsTable env g
    let g := SetDefaultFont g
    g.emit (Call.setCursor 0 (env.fontHeight g.trace + 1))

/-- Where control is when an execution of `drawErrorMessage` is observed:
still inside `while (stop)` (every poll so far was idle), gone through
`ESP.restart()` (the device reboots; the call does not come back), or returned
to the caller. -/
inductive Outcome where
  | waiting
  | restarted
  | returned
  deriving DecidableEq, Repr

/-- Lines 25-39 of `drawErrorMessage`: bring the display up, switch to the
critical screen when `stop` is set, clear the screen and set up the text. -/
def drawErrorMessage_screen (env : Env) (stop : Bool) (g : Globals) : Globals :=
  let g := displayInit env g
  let g := if stop then g.emit (Call.setActiveScreen "criticalmessage") else g
  let g := g.emit (Call.fillScreen TFT_BLACK)
  let g := SetSmallestFont 1 g
  let g := g.emit (Call.setTextSize 1)
  let g := g.emit (Call.setCursor 0 (env.fontHeight g.trace + 1))
  g.emit (Call.setTextColor TFT_WHITE TFT_BLACK)

/-- Lines 25-56 of `drawErrorMessage`: everything before the wait loop.
`formatted` is the rendering of `fmt` with the variadic arguments, `allocated`
tells whether `malloc_fn` returned a non-null buffer. The second component is
the value of the local `stop` when control reaches `while (stop)`. -/
def drawErrorMessage_render (env : Env) (stop : Bool) (module fmt formatted : String)
    (allocated : Bool) (g : Globals) : Globals × Bool :=
  let g := drawErrorMessage_screen env stop g
  let msg_size := formatted.utf8ByteSize + 1
  if !allocated then
    let g := g.emit (Call.logE module
      ("Could not allocate " ++ toString msg_size ++
        " bytes of memory to display message on screen"))
    let g := g.emit (Call.println fmt)
    (g, true)
  else
    let g := g.emit (Call.logE module formatted)
    let g := g.emit (Call.println formatted)
    (g, stop)

/-- Lines 59-71 of `drawErrorMessage`: the loop `while (stop)` followed by
`delay(5000)`. `polls` lists what the successive `getTouch` calls report; when
it is used up with the loop still running the outcome is `waiting`. Nothing in
the loop assigns `stop`. -/
def waitLoop (stop : Bool) : List Bool → Globals → Globals × Outcome
  | polls, g =>
    if !stop then
      (g.emit (Call.delay 5000), Outcome.returned)
    else
      match polls with
      | [] => (g, Outcome.waiting)
      | true :: _ =>
          let g := g.emit (Call.println "Restarting...")
          let g := g.emit (Call.delay 1000)
          (g.emit Call.restart, Outcome.restarted)
      | false :: rest => waitLoop stop rest (g.emit Call.yield)

def drawErrorMessage (env : Env) (stop : Bool) (module fmt formatted : String)
    (allocated : Bool) (polls : List Bool) (g : Globals) : Globals × Outcome :=
  let r := drawErrorMessage_render env stop module fmt formatted allocated g
  waitLoop r.2 polls r.1

/-! ## Colour codec -/

/-- Largest `unsigned long` of the target. -/
def ULONG_MAX : Nat := 2 ^ 32 - 1

/-- The C library's `isspace` in the "C" locale. -/
def isspace (c : Char) : Bool :=
  c = ' ' || (9 ≤ c.toNat && c.toNat ≤ 13)

/-- Digit value as `strtoul` reads it: `0-9`, then letters of either case
from 10 upwards. -/
def digitValue (c : Char) : Option Nat :=
  if 48 ≤ c.toNat ∧ c.toNat ≤ 57 then some (c.toNat - 48)
  else if 65 ≤ c.toNat ∧ c.toNat ≤ 90 then some (c.toNat - 55)
  else if 97 ≤ c.toNat ∧ c.toNat ≤ 122 then some (c.toNat - 87)
  else none

/-- Digit loop of `strtoul`: accumulates while the characters are digits below
`base`; `any` becomes `1` once a digit is taken and `-1` once the value no
longer fits an `unsigned long`. -/
def strtoul_digits (base : Nat) : List Char → Nat → Int → Nat × Int
  | [], acc, any => (acc, any)
  | c :: s, acc, any =>
    match digitValue c with
    | none => (acc, any)
    | some d =>
      if base ≤ d then (acc, any)
      else if any < 0 ∨ ULONG_MAX / base < acc ∨ (acc = ULONG_MAX / base ∧ ULONG_MAX % base < d) then
        strtoul_digits base s acc (-1)
      else
        strtoul_digits base s (acc * base + d) 1

/-- Sign step of `strtoul`: `if (c == '-') neg = 1, skip; else if (c == '+') skip`. -/
def strtoul_sign : List Char → Bool × List Char
  | [] => (false, [])
  | c :: t => if c = '-' then (true, t) else if c = '+' then (false, t) else (false, c :: t)

/-- Radix step of `strtoul`: when the base is 0 or 16 and the text goes on with
`0x` or `0X`, these two characters are skipped and the base is 16. -/
def strtoul_radix (base : Nat) : List Char → List Char × Nat
  | c :: x :: t =>
      if (base = 0 ∨ base = 16) ∧ c = '0' ∧ (x = 'x' ∨ x = 'X') then (t, 16)
      else (c :: x :: t, base)
  | s => (s, base)

/-- The C library routine `strtoul(s, NULL, base)` as implemented by the libc of
the target toolchain (newlib): leading white space, an optional sign, an
optional `0x`/`0X` when the base is 16 or 0, then the digits; `ULONG_MAX` on
overflow, the negated value (modulo `2^32`) after a minus sign. -/
def strtoul (s : List Char) (base : Nat) : Nat :=
  let s := s.dropWhile isspace
  let sg := strtoul_sign s
  let rd := strtoul_radix base sg.2
  let base := if rd.2 = 0 then (if rd.1.head? = some '0' then 8 else 10) else rd.2
  let r := strtoul_digits base rd.1 0 0
  if r.2 < 0 then ULONG_MAX
  else if sg.1 then (2 ^ 32 - r.1) % 2 ^ 32
  else r.1

/-- Modelled from the spec: the `ISNULLSTRING` test, whose definition lives in a
header outside this file; section 4.3 has the parser fail "when `text` is
empty or null". -/
def ISNULLSTRING (html : Option (List Char)) : Bool :=
  match html with
  | none => true
  | some [] => true
  | some (_ :: _) => false

def convertHTMLtoRGB888 (html : Option (List Char)) : Nat :=
  if ISNULLSTRING html then 0
  else
    match html with
    | some (c :: rest) =>
        let hex := if c = '#' then rest else c :: rest
        strtoul hex 16
    | _ => 0

/-- Packs RGB888 into RGB565 with masks and right shifts only, so nothing can
wrap. -/
def convertRGB888ToRGB565 (rgb : Nat) : Nat :=
  ((rgb &&& 0xf80000) >>> 8) ||| ((rgb &&& 0xfc00) >>> 5) ||| ((rgb &&& 0xf8) >>> 3)

def convertHTMLRGB888ToRGB565 (html : Option (List Char)) : Nat :=
  let rgb := convertHTMLtoRGB888 html
  convertRGB888ToRGB565 rgb

/-- The source expression of `convertRGB656ToRGB888` is
`(rgb565 & 0xF800 << 8) | (rgb565 & 0x7E0 << 5) | (rgb565 & 0x1F << 3)`; in C
`<<` binds tighter than `&`, so each shift applies to the constant. -/
def convertRGB656ToRGB888 (rgb565 : Nat) : Nat :=
  (rgb565 &&& (0xF800 <<< 8)) ||| (rgb565 &&& (0x7E0 <<< 5)) ||| (rgb565 &&& (0x1F <<< 3))

/-- The expansion section 4.3 of the specification describes for `to24Bit`:
each field of the 16-bit value is masked and then shifted left into its 8-bit
slot. -/
def spec_to24Bit (v : Nat) : Nat :=
  ((v &&& 0xF800) <<< 8) ||| ((v &&& 0x07E0) <<< 5) ||| ((v &&& 0x001F) <<< 3)

/-- Lowercase hexadecimal digit character of `d < 16`, as `%x` prints it. -/
def hexDigitChar (d : Nat) : Char :=
  if d < 10 then Char.ofNat (48 + d) else Char.ofNat (87 + d)

/-- The `k` least significant hexadecimal digits of `n`, most significant
first. -/
def hexDigitsN : Nat → Nat → List Char
  | 0, _ => []
  | k + 1, n => hexDigitsN k (n / 16) ++ [hexDigitChar (n % 16)]

/-- The rendering of the conversion `%06x` for an `unsigned` (32-bit) argument:
all significant hexadecimal digits, lowercase, and never fewer than six (padded
on the left with `0`). -/
def printf_06x (v : Nat) : List Char :=
  let v := v % 2 ^ 32
  if v < 16 ^ 6 then hexDigitsN 6 v
  else if v < 16 ^ 7 then hexDigitsN 7 v
  else hexDigitsN 8 v

/-- The call `snprintf(buffer, size, "#%06x", v)`: at most `size - 1` characters
are stored before the terminating NUL. The result is the text then found in
`buffer`. -/
def snprintf_hash_06x (size : Nat) (v : Nat) : List Char :=
  ('#' :: printf_06x v).take (size - 1)

/-- The returned pointer is the function's static 8-byte buffer; the value here
is the text it holds on return. -/
def convertRGB656ToHTMLRGB888 (rgb565 : Nat) : List Char :=
  snprintf_hash_06x 8 (convertRGB656ToRGB888 rgb565)

/-- The returned pointer is the function's static 8-byte buffer; the value here
is the text it holds on return. -/
def convertRGB888oHTMLRGB888 (rgb888 : Nat) : List Char :=
  snprintf_hash_06x 8 rgb888

/-- The number a string of hexadecimal digits denotes in base 16, continuing
from the value `acc` of the digits already read. -/
def hexValueFrom (acc : Nat) (s : List Char) : Nat :=
  s.foldl (fun a c => a * 16 + (digitValue c).getD 0) acc

/-- The number a string of hexadecimal digits denotes in base 16. -/
def hexValue (s : List Char) : Nat :=
  hexValueFrom 0 s

/-- Characters of hexadecimal text: decimal digits and `a-f` in either case. -/
def isHexDigit (c : Char) : Bool :=
  (48 ≤ c.toNat && c.toNat ≤ 57) || (65 ≤ c.toNat && c.toNat ≤ 70) ||
    (97 ≤ c.toNat && c.toNat ≤ 102)

/-- Characters `%x` can print: decimal digits and `a-f`. -/
def isLowerHexDigit (c : Char) : Bool :=
  (48 ≤ c.toNat && c.toNat ≤ 57) || (97 ≤ c.toNat && c.toNat ≤ 102)

/-! ## Sequences of font operations -/

/-- One call of a function of the font registry. -/
inductive FontOp where
  | initFontsTable
  | setFont (newFont : FontPtr)
  | setDefaultFont
  | setSmallestFont (whichOne : Int)
  | setLargestFont
  | setSmallerFont
  | setLargerFont
  deriving DecidableEq, Repr

/-- The state after the call `op`; the boolean results of the two stepping
functions are dropped. -/
def FontOp.apply (env : Env) (op : FontOp) (g : Globals) : Globals :=
  match op with
  | FontOp.initFontsTable => InitFontsTable env g
  | FontOp.setFont newFont => SetFont newFont g
  | FontOp.setDefaultFont => SetDefaultFont g
  | FontOp.setSmallestFont whichOne => SetSmallestFont whichOne g
  | FontOp.setLargestFont => SetLargestFont g
  | FontOp.setSmallerFont => (SetSmallerFont g).2
  | FontOp.setLargerFont => (SetLargerFont g).2

/-- The state after the calls `ops`, made in order from `g`. -/
def runFontOps (env : Env) (ops : List FontOp) (g : Globals) : Globals :=
  ops.foldl (fun st op => op.apply env st) g

/-- The calls the membership invariant is stated for: the six selection
functions (`InitFontsTable` excluded), with `SetFont` given a font of
`catalog`. -/
def FontOp.selectsWithin (catalog : List FontPtr) : FontOp → Bool
  | FontOp.initFontsTable => false
  | FontOp.setFont newFont => decide (newFont ∈ catalog)
  | _ => true

/-- The operations the boundary property is stated for: `InitFontsTable` and the
four functions that select by position. -/
def FontOp.isPositional : FontOp → Bool
  | FontOp.setFont _ => false
  | FontOp.setDefaultFont => false
  | _ => true

/-! ## Lemmas on the iterator scan -/

theorem iterator_from_ptr_scan_eq_indexOf (rest : List FontPtr) (first : Nat) (ptr : FontPtr) :
    iterator_from_ptr_scan rest first ptr = first + rest.indexOf ptr := by
  induction rest generalizing first with
  | nil => simp [iterator_from_ptr_scan]
  | cons x rest ih =>
    by_cases hx : x = ptr
    · simp [iterator_from_ptr_scan, hx]
    · rw [List.indexOf_cons_ne _ hx]
      simp only [iterator_from_ptr_scan, hx, if_false, ih]
      omega

theorem iterator_from_ptr_eq_indexOf (l : List FontPtr) (ptr : FontPtr) :
    iterator_from_ptr l ptr = l.indexOf ptr := by
  simp [iterator_from_ptr, listBegin, iterator_from_ptr_scan_eq_indexOf]

/-- The index of the first occurrence is what `indexOf` computes. -/
theorem indexOf_eq_of_first_occurrence (l : List FontPtr) (ptr : FontPtr) (k : Nat)
    (hk : k < l.length) (hat : l[k] = ptr) (hfirst : ∀ j, j < k → l[j]? ≠ some ptr) :
    l.indexOf ptr = k := by
  induction l generalizing k with
  | nil => simp at hk
  | cons x rest ih =>
    cases k with
    | zero =>
      simp only [List.getElem_cons_zero] at hat
      exact List.indexOf_cons_eq _ hat
    | succ k =>
      have hx : x ≠ ptr := by
        intro hx
        exact hfirst 0 (Nat.succ_pos k) (by simp [hx])
      rw [List.indexOf_cons_ne _ hx]
      have hk2 : k < rest.length := by simpa using hk
      have := ih k hk2 (by simpa using hat) (fun j hj => by
        have := hfirst (j + 1) (Nat.succ_lt_succ hj)
        simpa using this)
      omega

theorem indexOf_eq_of_nodup (l : List FontPtr) (hnd : l.Nodup) (ptr : FontPtr) (k : Nat)
    (hk : k < l.length) (hat : l[k] = ptr) : l.indexOf ptr = k := by
  subst hat
  exact List.indexOf_getElem hnd k hk

theorem advance_neg_one (l : List FontPtr) (it : Nat) : advance l it (-1) = iterDec l it := rfl

/-- Closed form of `SetSmallerFont` in terms of the position of `CurrentFont`. -/
theorem SetSmallerFont_eq (g : Globals) :
    SetSmallerFont g =
      if 0 < g.FontsList.indexOf g.CurrentFont ∧
          g.FontsList.indexOf g.CurrentFont < g.FontsList.length then
        (true, SetFont (g.FontsList.getD (g.FontsList.indexOf g.CurrentFont - 1) 0) g)
      else (false, g) := by
  have hle : g.FontsList.indexOf g.CurrentFont ≤ g.FontsList.length := List.indexOf_le_length
  simp only [SetSmallerFont, iterator_from_ptr_eq_indexOf, listEnd, advance_neg_one, deref,
    iterDec]
  by_cases h1 : g.FontsList.indexOf g.CurrentFont = g.FontsList.length
  · simp [h1]
  · by_cases h0 : g.FontsList.indexOf g.CurrentFont = 0
    · simp [h0]
    · have h2 : g.FontsList.indexOf g.CurrentFont - 1 ≠ g.FontsList.length := by omega
      have h3 : 0 < g.FontsList.indexOf g.CurrentFont ∧
          g.FontsList.indexOf g.CurrentFont < g.FontsList.length := by omega
      simp [h1, h0, h2, h3]

/-- Closed form of `SetLargerFont` in terms of the position of `CurrentFont`. -/
theorem SetLargerFont_eq (g : Globals) :
    SetLargerFont g =
      if g.FontsList.indexOf g.CurrentFont + 1 < g.FontsList.length then
        (true, SetFont (g.FontsList.getD (g.FontsList.indexOf g.CurrentFont + 1) 0) g)
      else (false, g) := by
  have hle : g.FontsList.indexOf g.CurrentFont ≤ g.FontsList.length := List.indexOf_le_length
  simp only [SetLargerFont, iterator_from_ptr_eq_indexOf, listEnd, deref, iterInc]
  by_cases h1 : g.FontsList.indexOf g.CurrentFont = g.FontsList.length
  · simp [h1]
  · by_cases h2 : g.FontsList.indexOf g.CurrentFont + 1 = g.FontsList.length
    · simp [h1, h2]
    · have h3 : g.FontsList.indexOf g.CurrentFont + 1 < g.FontsList.length := by omega
      simp [h1, h2, h3]

@[simp] theorem SetFont_CurrentFont (f : FontPtr) (g : Globals) :
    (SetFont f g).CurrentFont = f := rfl

@[simp] theorem SetFont_FontsList (f : FontPtr) (g : Globals) :
    (SetFont f g).FontsList = g.FontsList := rfl

/-! ## Font stepping: `SetSmallerFont`, `SetLargerFont` -/

/-- C1: when the first occurrence of `CurrentFont` in `FontsList` is at position
`k ≥ 1`, `SetSmallerFont` returns true and `CurrentFont` becomes the entry at
position `k - 1`; the catalog itself is untouched. -/
theorem SetSmallerFont_steps_to_predecessor (g : Globals) (k : Nat)
    (hk : k < g.FontsList.length) (hat : g.FontsList[k] = g.CurrentFont)
    (hfirst : ∀ j, j < k → g.FontsList[j]? ≠ some g.CurrentFont) (hpos : 1 ≤ k) :
    (SetSmallerFont g).1 = true ∧
      g.FontsList[k - 1]? = some (SetSmallerFont g).2.CurrentFont ∧
      (SetSmallerFont g).2.FontsList = g.FontsList := by
  have hidx := indexOf_eq_of_first_occurrence g.FontsList g.CurrentFont k hk hat hfirst
  have hk1 : k - 1 < g.FontsList.length := by omega
  rw [SetSmallerFont_eq, hidx, if_pos ⟨by omega, hk⟩]
  refine ⟨rfl, ?_, rfl⟩
  simp [List.getD_eq_getElem _ _ hk1, List.getElem?_eq_getElem hk1]

/-- C1 at the scenario of the specification: catalog `[Small, Medium, Large]`,
current `Medium` (position 1), gives true and current `Small` (position 0). -/
theorem SetSmallerFont_steps_to_predecessor_witness :
    (SetSmallerFont scenarioRegistry).1 = true ∧
      scenarioRegistry.FontsList[1 - 1]? = some (SetSmallerFont scenarioRegistry).2.CurrentFont ∧
      (SetSmallerFont scenarioRegistry).2.FontsList = scenarioRegistry.FontsList :=
  SetSmallerFont_steps_to_predecessor scenarioRegistry 1 (by decide) (by decide)
    (by intro j hj; interval_cases j; decide) (by decide)

/-- C2: when `CurrentFont` is the first entry of `FontsList`, or is not in
`FontsList` at all, `SetSmallerFont` returns false and changes nothing (the
empty catalog is covered by the second case). -/
theorem SetSmallerFont_at_first_or_absent (g : Globals)
    (h : g.FontsList.head? = some g.CurrentFont ∨ g.CurrentFont ∉ g.FontsList) :
    SetSmallerFont g = (false, g) := by
  rw [SetSmallerFont_eq]
  rcases h with h | h
  · have h0 : g.FontsList.indexOf g.CurrentFont = 0 := by
      cases hl : g.FontsList with
      | nil => simp [hl] at h
      | cons x rest =>
        rw [hl] at h
        simp only [List.head?_cons, Option.some.injEq] at h
        exact List.indexOf_cons_eq _ h
    simp [h0]
  · have hl : g.FontsList.indexOf g.CurrentFont = g.FontsList.length :=
      List.indexOf_eq_length.mpr h
    simp [hl]

/-- C2 at `[Small, Medium, Large]` with current `Small`: false, nothing changes. -/
theorem SetSmallerFont_at_first_or_absent_witness :
    SetSmallerFont { scenarioRegistry with CurrentFont := 10 } =
      (false, { scenarioRegistry with CurrentFont := 10 }) :=
  SetSmallerFont_at_first_or_absent { scenarioRegistry with CurrentFont := 10 }
    (Or.inl (by decide))

/-- C3: on a catalog of pairwise-distinct fonts, `SetLargerFont` returns true
exactly when `CurrentFont` is in the catalog and is not its last entry; on true
the new `CurrentFont` is the entry right after the old one (catalog untouched),
on false nothing changes. -/
theorem SetLargerFont_true_iff (g : Globals) (hnd : g.FontsList.Nodup) :
    ((SetLargerFont g).1 = true ↔
        (g.CurrentFont ∈ g.FontsList ∧ g.FontsList.getLast? ≠ some g.CurrentFont)) ∧
      ((SetLargerFont g).1 = true →
        (∃ k, g.FontsList[k]? = some g.CurrentFont ∧
          g.FontsList[k + 1]? = some (SetLargerFont g).2.CurrentFont) ∧
        (SetLargerFont g).2.FontsList = g.FontsList) ∧
      ((SetLargerFont g).1 = false → (SetLargerFont g).2 = g) := by
  have hle : g.FontsList.indexOf g.CurrentFont ≤ g.FontsList.length := List.indexOf_le_length
  rw [SetLargerFont_eq]
  by_cases hstep : g.FontsList.indexOf g.CurrentFont + 1 < g.FontsList.length
  · have hlt : g.FontsList.indexOf g.CurrentFont < g.FontsList.length := by omega
    have hmem : g.CurrentFont ∈ g.FontsList := List.indexOf_lt_length.mp hlt
    have hget : g.FontsList[g.FontsList.indexOf g.CurrentFont] = g.CurrentFont :=
      List.getElem_indexOf hlt
    rw [if_pos hstep]
    refine ⟨⟨fun _ => ⟨hmem, ?_⟩, fun _ => rfl⟩, fun _ => ⟨⟨g.FontsList.indexOf g.CurrentFont, ?_, ?_⟩, rfl⟩, fun h => ?_⟩
    · intro hlast
      rw [List.getLast?_eq_getElem?,
        List.getElem?_eq_getElem (show g.FontsList.length - 1 < g.FontsList.length by omega)]
        at hlast
      have := indexOf_eq_of_nodup g.FontsList hnd g.CurrentFont (g.FontsList.length - 1)
        (by omega) (by simpa using hlast)
      omega
    · rw [List.getElem?_eq_getElem hlt, hget]
    · simp [List.getD_eq_getElem _ _ hstep, List.getElem?_eq_getElem hstep]
    · simp at h
  · rw [if_neg hstep]
    refine ⟨⟨fun h => by simp at h, fun h => ?_⟩, fun h => by simp at h, fun _ => rfl⟩
    exfalso
    obtain ⟨hmem, hlast⟩ := h
    have hlt : g.FontsList.indexOf g.CurrentFont < g.FontsList.length :=
      List.indexOf_lt_length.mpr hmem
    have hget : g.FontsList[g.FontsList.indexOf g.CurrentFont] = g.CurrentFont :=
      List.getElem_indexOf hlt
    have heq : g.FontsList.indexOf g.CurrentFont = g.FontsList.length - 1 := by omega
    apply hlast
    rw [List.getLast?_eq_getElem?, ← heq, List.getElem?_eq_getElem hlt, hget]

/-- C3 at `[Small, Medium, Large]` with current `Medium`: true, and the new
current is `Large`. -/
theorem SetLargerFont_true_iff_witness :
    (SetLargerFont scenarioRegistry).1 = true ∧
      (SetLargerFont scenarioRegistry).2.CurrentFont = 30 ∧
      scenarioRegistry.CurrentFont ∈ scenarioRegistry.FontsList ∧
      scenarioRegistry.FontsList.getLast? ≠ some scenarioRegistry.CurrentFont :=
  ⟨by decide, by decide,
   (((SetLargerFont_true_iff scenarioRegistry (by decide)).1).mp (by decide)).1,
   (((SetLargerFont_true_iff scenarioRegistry (by decide)).1).mp (by decide)).2⟩

/-- C4: on a catalog of pairwise-distinct fonts, with `CurrentFont` at a
position that is neither the first nor the last, `SetLargerFont` followed by
`SetSmallerFont` returns true both times and `CurrentFont` is back at its
original value. -/
theorem SetLargerFont_then_SetSmallerFont (g : Globals) (hnd : g.FontsList.Nodup) (k : Nat)
    (hfirst : 0 < k) (hlast : k + 1 < g.FontsList.length)
    (hat : g.FontsList[k]? = some g.CurrentFont) :
    (SetLargerFont g).1 = true ∧
      (SetSmallerFont (SetLargerFont g).2).1 = true ∧
      (SetSmallerFont (SetLargerFont g).2).2.CurrentFont = g.CurrentFont := by
  have hk : k < g.FontsList.length := by omega
  rw [List.getElem?_eq_getElem hk, Option.some.injEq] at hat
  have hidx := indexOf_eq_of_nodup g.FontsList hnd g.CurrentFont k hk hat
  have hup : SetLargerFont g = (true, SetFont g.FontsList[k + 1] g) := by
    rw [SetLargerFont_eq, hidx, if_pos hlast, List.getD_eq_getElem _ _ hlast]
  have hidx2 : (SetFont g.FontsList[k + 1] g).FontsList.indexOf
      (SetFont g.FontsList[k + 1] g).CurrentFont = k + 1 := by
    simp only [SetFont_FontsList, SetFont_CurrentFont]
    exact List.indexOf_getElem hnd (k + 1) hlast
  have hdown : SetSmallerFont (SetFont g.FontsList[k + 1] g) =
      (true, SetFont g.FontsList[k] (SetFont g.FontsList[k + 1] g)) := by
    rw [SetSmallerFont_eq, hidx2]
    simp only [SetFont_FontsList]
    rw [if_pos ⟨by omega, hlast⟩]
    simp [List.getD_eq_getElem _ _ hk, List.getElem?_eq_getElem hk]
  rw [hup]
  simp only [hdown, SetFont_CurrentFont, hat, and_self]

/-- C4 at `[Small, Medium, Large]` with current `Medium`. -/
theorem SetLargerFont_then_SetSmallerFont_witness :
    (SetLargerFont scenarioRegistry).1 = true ∧
      (SetSmallerFont (SetLargerFont scenarioRegistry).2).1 = true ∧
      (SetSmallerFont (SetLargerFont scenarioRegistry).2).2.CurrentFont =
        scenarioRegistry.CurrentFont :=
  SetLargerFont_then_SetSmallerFont scenarioRegistry (by decide) 1 (by decide) (by decide)
    (by decide)

/-! ## The critical wait loop of `drawErrorMessage` -/

theorem waitLoop_idle (rest : List Bool) (g : Globals) :
    waitLoop true (false :: rest) g = waitLoop true rest (g.emit Call.yield) := by
  simp [waitLoop]

theorem waitLoop_touch (rest : List Bool) (g : Globals) :
    waitLoop true (true :: rest) g =
      ({ g with trace := g.trace ++
          [Call.println "Restarting...", Call.delay 1000, Call.restart] },
        Outcome.restarted) := by
  simp [waitLoop, Globals.emit]

theorem waitLoop_skip (polls : List Bool) (g : Globals) :
    waitLoop false polls g = (g.emit (Call.delay 5000), Outcome.returned) := by
  cases polls with
  | nil => simp [waitLoop]
  | cons t rest => cases t <;> simp [waitLoop]

/-- Closed form of the loop entered with `stop = true`: one `yield` per idle
poll before the first touch, then the restart sequence if a touch came. -/
theorem waitLoop_true_eq (polls : List Bool) (g : Globals) :
    waitLoop true polls g =
      ({ g with trace := g.trace ++
          (List.replicate (polls.takeWhile (fun t => !t)).length Call.yield ++
            if true ∈ polls then
              [Call.println "Restarting...", Call.delay 1000, Call.restart]
            else []) },
        if true ∈ polls then Outcome.restarted else Outcome.waiting) := by
  induction polls generalizing g with
  | nil => simp [waitLoop]
  | cons t rest ih =>
    cases t with
    | true => simp [waitLoop_touch]
    | false =>
      rw [waitLoop_idle, ih]
      simp [Globals.emit, List.replicate_succ]

theorem waitLoop_true_ne_returned (polls : List Bool) (g : Globals) :
    (waitLoop true polls g).2 ≠ Outcome.returned := by
  rw [waitLoop_true_eq]
  by_cases h : true ∈ polls <;> simp [h]

theorem drawErrorMessage_eq (env : Env) (stop : Bool) (module fmt formatted : String)
    (allocated : Bool) (polls : List Bool) (g : Globals) :
    drawErrorMessage env stop module fmt formatted allocated polls g =
      waitLoop (drawErrorMessage_render env stop module fmt formatted allocated g).2 polls
        (drawErrorMessage_render env stop module fmt formatted allocated g).1 := rfl

/-- C5: once the loop `while (stop)` is entered (`stop = true`), whatever the
polls report: control never reaches the return path (the outcome is never
`returned`, and no `delay(5000)` is issued); an idle poll leaves the loop
running with the same `stop` (only a `yield` is issued); the loop is left
exactly when a poll reports a touch, and then through `ESP.restart()`. The last
part says the same of any call of `drawErrorMessage` that reaches the loop with
`stop` true. -/
theorem waitLoop_entered_never_returns (polls : List Bool) (g : Globals) :
    (waitLoop true polls g).2 ≠ Outcome.returned ∧
      (∀ rest, waitLoop true (false :: rest) g = waitLoop true rest (g.emit Call.yield)) ∧
      ((waitLoop true polls g).2 = Outcome.waiting ↔ true ∉ polls) ∧
      ((waitLoop true polls g).2 = Outcome.restarted ↔ true ∈ polls) ∧
      (∃ issued, (waitLoop true polls g).1.trace = g.trace ++ issued ∧
        Call.delay 5000 ∉ issued ∧ (Call.restart ∈ issued ↔ true ∈ polls)) ∧
      (∀ env stop module fmt formatted allocated,
        (drawErrorMessage_render env stop module fmt formatted allocated g).2 = true →
        (drawErrorMessage env stop module fmt formatted allocated polls g).2 ≠
            Outcome.returned ∧
          ((drawErrorMessage env stop module fmt formatted allocated polls g).2 =
            Outcome.restarted ↔ true ∈ polls)) := by
  refine ⟨?_, fun rest => waitLoop_idle rest g, ?_, ?_,
    ⟨List.replicate (polls.takeWhile (fun t => !t)).length Call.yield ++
      if true ∈ polls then [Call.println "Restarting...", Call.delay 1000, Call.restart]
      else [], ?_, ?_, ?_⟩, ?_⟩
  · rw [waitLoop_true_eq]
    by_cases h : true ∈ polls <;> simp [h]
  · rw [waitLoop_true_eq]
    by_cases h : true ∈ polls <;> simp [h]
  · rw [waitLoop_true_eq]
    by_cases h : true ∈ polls <;> simp [h]
  · rw [waitLoop_true_eq]
  · by_cases h : true ∈ polls <;> simp [h, List.mem_replicate]
  · by_cases h : true ∈ polls <;> simp [h, List.mem_replicate]
  · intro env stop module fmt formatted allocated hentered
    rw [drawErrorMessage_eq, hentered, waitLoop_true_eq]
    by_cases h : true ∈ polls <;> simp [h]

/-- C5 at a critical report (`stop = true`) from the initial state, with two
idle polls followed by a touch: the call ends in the restart, not in a return. -/
theorem waitLoop_entered_never_returns_witness :
    (drawErrorMessage sampleEnv true "ui" "code %d" "code 7" true [false, false, true]
        (Globals.initial sampleEnv)).2 ≠ Outcome.returned ∧
      ((drawErrorMessage sampleEnv true "ui" "code %d" "code 7" true [false, false, true]
        (Globals.initial sampleEnv)).2 = Outcome.restarted ↔ true ∈ [false, false, true]) :=
  (waitLoop_entered_never_returns [false, false, true] (Globals.initial sampleEnv)).2.2.2.2.2
    sampleEnv true "ui" "code %d" "code 7" true rfl

/-! ## Which executions of `drawErrorMessage` block -/

/-- What `drawErrorMessage` does before the loop, as a function of `allocated`:
the last two calls are the error log line and the `println`, and the loop
condition is `stop` or forced to true. -/
theorem drawErrorMessage_render_cases (env : Env) (stop : Bool) (module fmt formatted : String)
    (allocated : Bool) (g : Globals) :
    (allocated = false →
      (drawErrorMessage_render env stop module fmt formatted allocated g).2 = true ∧
      ∃ before text,
        (drawErrorMessage_render env stop module fmt formatted allocated g).1.trace =
          before ++ [Call.logE module text, Call.println fmt]) ∧
    (allocated = true →
      (drawErrorMessage_render env stop module fmt formatted allocated g).2 = stop ∧
      ∃ before,
        (drawErrorMessage_render env stop module fmt formatted allocated g).1.trace =
          before ++ [Call.logE module formatted, Call.println formatted]) := by
  constructor
  · intro h
    subst h
    refine ⟨by simp [drawErrorMessage_render], (drawErrorMessage_screen env stop g).trace,
      "Could not allocate " ++ toString (formatted.utf8ByteSize + 1) ++
        " bytes of memory to display message on screen", ?_⟩
    simp only [drawErrorMessage_render, Globals.emit, Bool.not_false, if_true,
      List.append_assoc, List.singleton_append]
  · intro h
    subst h
    refine ⟨by simp [drawErrorMessage_render], (drawErrorMessage_screen env stop g).trace, ?_⟩
    simp only [drawErrorMessage_render, Globals.emit, Bool.not_true, Bool.false_eq_true,
      if_false, List.append_assoc, List.singleton_append]

/-- C6: `drawErrorMessage` reaches `while (stop)` with `stop` true exactly when
the caller passed `stop = true` or the allocation failed; in those executions it
never returns, whatever the polls. A failed allocation prints the raw template
`fmt` and blocks even for `stop = false`. With `stop = false` and a successful
allocation the formatted text is printed, the loop is skipped, `delay(5000)` is
issued and the function returns, whatever the polls. -/
theorem drawErrorMessage_blocks_iff (env : Env) (stop : Bool) (module fmt formatted : String)
    (allocated : Bool) (polls : List Bool) (g : Globals) :
    ((drawErrorMessage_render env stop module fmt formatted allocated g).2 = true ↔
        (stop = true ∨ allocated = false)) ∧
      ((drawErrorMessage env stop module fmt formatted allocated polls g).2 ≠ Outcome.returned ↔
        (stop = true ∨ allocated = false)) ∧
      (allocated = false →
        (drawErrorMessage env stop module fmt formatted allocated polls g).2 ≠ Outcome.returned ∧
        ∃ before text,
          (drawErrorMessage_render env stop module fmt formatted allocated g).1.trace =
            before ++ [Call.logE module text, Call.println fmt]) ∧
      (stop = false → allocated = true →
        (∃ before,
          (drawErrorMessage_render env stop module fmt formatted allocated g).1.trace =
            before ++ [Call.logE module formatted, Call.println formatted]) ∧
        drawErrorMessage env stop module fmt formatted allocated polls g =
          ((drawErrorMessage_render env stop module fmt formatted allocated g).1.emit
            (Call.delay 5000), Outcome.returned)) := by
  have hc := drawErrorMessage_render_cases env stop module fmt formatted allocated g
  have hflag : (drawErrorMessage_render env stop module fmt formatted allocated g).2 = true ↔
      (stop = true ∨ allocated = false) := by
    cases allocated with
    | false => simp [(hc.1 rfl).1]
    | true => simp [(hc.2 rfl).1]
  have hout : (drawErrorMessage env stop module fmt formatted allocated polls g).2 ≠
      Outcome.returned ↔ (stop = true ∨ allocated = false) := by
    rw [← hflag, drawErrorMessage_eq]
    cases hr : (drawErrorMessage_render env stop module fmt formatted allocated g).2 with
    | false => simp [waitLoop_skip]
    | true => simpa using waitLoop_true_ne_returned polls _
  refine ⟨hflag, hout, fun ha => ⟨hout.mpr (Or.inr ha), (hc.1 ha).2⟩, fun hs ha => ⟨(hc.2 ha).2, ?_⟩⟩
  rw [drawErrorMessage_eq, (hc.2 ha).1, hs, waitLoop_skip]

/-- C6 at concrete calls with `stop = false`: a failed allocation does not
return, a successful one skips the loop, holds and returns. -/
theorem drawErrorMessage_blocks_iff_witness :
    (drawErrorMessage sampleEnv false "ui" "code %d" "code 7" false [false, false]
        (Globals.initial sampleEnv)).2 ≠ Outcome.returned ∧
      drawErrorMessage sampleEnv false "ui" "code %d" "code 7" true [false, false]
          (Globals.initial sampleEnv) =
        ((drawErrorMessage_render sampleEnv false "ui" "code %d" "code 7" true
            (Globals.initial sampleEnv)).1.emit (Call.delay 5000), Outcome.returned) :=
  ⟨((drawErrorMessage_blocks_iff sampleEnv false "ui" "code %d" "code 7" false [false, false]
      (Globals.initial sampleEnv)).2.2.1 rfl).1,
   ((drawErrorMessage_blocks_iff sampleEnv false "ui" "code %d" "code 7" true [false, false]
      (Globals.initial sampleEnv)).2.2.2 rfl rfl).2⟩

/-! ## Colour codec: bit packing -/

theorem testBit_mask_red (i : Nat) : Nat.testBit 0xf80000 i = decide (19 ≤ i ∧ i < 24) := by
  by_cases hi : i < 24
  · interval_cases i <;> decide
  · have h : (0xf80000 : Nat) < 2 ^ i :=
      lt_of_lt_of_le (by norm_num) (Nat.pow_le_pow_right (by norm_num) (Nat.le_of_not_lt hi))
    rw [Nat.testBit_lt_two_pow h]
    simp
    omega

theorem testBit_mask_green (i : Nat) : Nat.testBit 0xfc00 i = decide (10 ≤ i ∧ i < 16) := by
  by_cases hi : i < 16
  · interval_cases i <;> decide
  · have h : (0xfc00 : Nat) < 2 ^ i :=
      lt_of_lt_of_le (by norm_num) (Nat.pow_le_pow_right (by norm_num) (Nat.le_of_not_lt hi))
    rw [Nat.testBit_lt_two_pow h]
    simp
    omega

theorem testBit_mask_blue (i : Nat) : Nat.testBit 0xf8 i = decide (3 ≤ i ∧ i < 8) := by
  by_cases hi : i < 8
  · interval_cases i <;> decide
  · have h : (0xf8 : Nat) < 2 ^ i :=
      lt_of_lt_of_le (by norm_num) (Nat.pow_le_pow_right (by norm_num) (Nat.le_of_not_lt hi))
    rw [Nat.testBit_lt_two_pow h]
    simp
    omega

/-- Every bit of `convertRGB888ToRGB565 rgb`, in terms of the bits of `rgb`. -/
theorem convertRGB888ToRGB565_testBit (rgb i : Nat) :
    (convertRGB888ToRGB565 rgb).testBit i =
      if i < 5 then rgb.testBit (3 + i)
      else if i < 11 then rgb.testBit (5 + i)
      else if i < 16 then rgb.testBit (8 + i)
      else false := by
  simp only [convertRGB888ToRGB565, Nat.testBit_or, Nat.testBit_shiftRight, Nat.testBit_and,
    testBit_mask_red, testBit_mask_green, testBit_mask_blue]
  by_cases h5 : i < 5
  · have a : ¬ (19 ≤ 8 + i) := by omega
    have b : ¬ (10 ≤ 5 + i) := by omega
    have c : 3 ≤ 3 + i ∧ 3 + i < 8 := by omega
    simp [h5, a, b, c]
  · by_cases h11 : i < 11
    · have a : ¬ (19 ≤ 8 + i) := by omega
      have b : 10 ≤ 5 + i ∧ 5 + i < 16 := by omega
      have c : ¬ (3 + i < 8) := by omega
      simp [h5, h11, a, b, c]
    · by_cases h16 : i < 16
      · have a : 19 ≤ 8 + i ∧ 8 + i < 24 := by omega
        have b : ¬ (5 + i < 16) := by omega
        have c : ¬ (3 + i < 8) := by omega
        simp [h5, h11, h16, a, b, c]
      · have a : ¬ (8 + i < 24) := by omega
        have b : ¬ (5 + i < 16) := by omega
        have c : ¬ (3 + i < 8) := by omega
        simp [h5, h11, h16, a, b, c]

theorem convertRGB888ToRGB565_lt (rgb : Nat) : convertRGB888ToRGB565 rgb < 2 ^ 16 := by
  apply Nat.lt_pow_two_of_testBit
  intro i hi
  rw [convertRGB888ToRGB565_testBit]
  have h5 : ¬ i < 5 := by omega
  have h11 : ¬ i < 11 := by omega
  have h16 : ¬ i < 16 := by omega
  simp [h5, h11, h16]

/-- The packed value written with division and remainder: the top five bits of
each of red and blue and the top six bits of green, nothing added. -/
theorem convertRGB888ToRGB565_eq_div_mod (rgb : Nat) :
    convertRGB888ToRGB565 rgb =
      2 ^ 11 * (rgb / 2 ^ 19 % 2 ^ 5) + (2 ^ 5 * (rgb / 2 ^ 10 % 2 ^ 6) + rgb / 2 ^ 3 % 2 ^ 5) := by
  apply Nat.eq_of_testBit_eq
  intro i
  have hb : rgb / 2 ^ 3 % 2 ^ 5 < 2 ^ 5 := Nat.mod_lt _ (by norm_num)
  have hg : rgb / 2 ^ 10 % 2 ^ 6 < 2 ^ 6 := Nat.mod_lt _ (by norm_num)
  have hgb : 2 ^ 5 * (rgb / 2 ^ 10 % 2 ^ 6) + rgb / 2 ^ 3 % 2 ^ 5 < 2 ^ 11 := by omega
  rw [convertRGB888ToRGB565_testBit, Nat.testBit_mul_pow_two_add _ hgb,
    Nat.testBit_mul_pow_two_add _ hb]
  simp only [Nat.testBit_mod_two_pow, ← Nat.shiftRight_eq_div_pow, Nat.testBit_shiftRight]
  by_cases h5 : i < 5
  · have h11 : i < 11 := by omega
    simp [h5, h11]
  · by_cases h11 : i < 11
    · have a : i - 5 < 6 := by omega
      have b : 10 + (i - 5) = 5 + i := by omega
      simp [h5, h11, a, b]
    · by_cases h16 : i < 16
      · have a : i - 11 < 5 := by omega
        have b : 19 + (i - 11) = 8 + i := by omega
        simp [h5, h11, h16, a, b]
      · have a : ¬ (i - 11 < 5) := by omega
        simp [h5, h11, h16, a]

/-- C7: bits 15-11 of `convertRGB888ToRGB565 rgb` are bits 23-19 of `rgb`, bits
10-5 are bits 15-10 of `rgb`, bits 4-0 are bits 7-3 of `rgb`, and no higher bit
is set (the result is below `2^16`); this is truncation of each channel, with
no rounding. `0xFFFFFF` maps to `0xFFFF` and `0` to `0`. -/
theorem convertRGB888ToRGB565_spec (rgb : Nat) :
    (∀ j, j < 5 → (convertRGB888ToRGB565 rgb).testBit (11 + j) = rgb.testBit (19 + j)) ∧
      (∀ j, j < 6 → (convertRGB888ToRGB565 rgb).testBit (5 + j) = rgb.testBit (10 + j)) ∧
      (∀ j, j < 5 → (convertRGB888ToRGB565 rgb).testBit j = rgb.testBit (3 + j)) ∧
      convertRGB888ToRGB565 rgb < 2 ^ 16 ∧
      convertRGB888ToRGB565 rgb =
        2 ^ 11 * (rgb / 2 ^ 19 % 2 ^ 5) + (2 ^ 5 * (rgb / 2 ^ 10 % 2 ^ 6) + rgb / 2 ^ 3 % 2 ^ 5) ∧
      convertRGB888ToRGB565 0xFFFFFF = 0xFFFF ∧
      convertRGB888ToRGB565 0x000000 = 0x0000 := by
  refine ⟨fun j hj => ?_, fun j hj => ?_, fun j hj => ?_, convertRGB888ToRGB565_lt rgb,
    convertRGB888ToRGB565_eq_div_mod rgb, by decide, by decide⟩
  · rw [convertRGB888ToRGB565_testBit]
    have h5 : ¬ (11 + j < 5) := by omega
    have h11 : ¬ (11 + j < 11) := by omega
    have h16 : 11 + j < 16 := by omega
    have e : 8 + (11 + j) = 19 + j := by omega
    simp [h5, h11, h16, e]
  · rw [convertRGB888ToRGB565_testBit]
    have h5 : ¬ (5 + j < 5) := by omega
    have h11 : 5 + j < 11 := by omega
    have e : 5 + (5 + j) = 10 + j := by omega
    simp [h5, h11, e]
  · rw [convertRGB888ToRGB565_testBit]
    simp [hj]

/-- C7 at `rgb = 0x123456`: the lowest bit of each field of the result is the
matching bit of the input. -/
theorem convertRGB888ToRGB565_spec_witness :
    (convertRGB888ToRGB565 0x123456).testBit (11 + 0) = (0x123456).testBit (19 + 0) ∧
      (convertRGB888ToRGB565 0x123456).testBit (5 + 0) = (0x123456).testBit (10 + 0) ∧
      (convertRGB888ToRGB565 0x123456).testBit 0 = (0x123456).testBit (3 + 0) :=
  ⟨(convertRGB888ToRGB565_spec 0x123456).1 0 (by decide),
   (convertRGB888ToRGB565_spec 0x123456).2.1 0 (by decide),
   (convertRGB888ToRGB565_spec 0x123456).2.2.1 0 (by decide)⟩

/-- The three masks of `convertRGB656ToRGB888` amount to a single mask: the
value is never shifted. -/
theorem convertRGB656ToRGB888_eq_mask (rgb565 : Nat) :
    convertRGB656ToRGB888 rgb565 = rgb565 &&& 0xF8FCF8 := by
  unfold convertRGB656ToRGB888
  rw [← Nat.and_or_distrib_left, ← Nat.and_or_distrib_left]
  rfl

/-- C8 (evaluation at `0xFFFF`): the code returns `0xFCF8`, whereas shifting
each field back into its 8-bit slot gives `0xF8FCF8`; in the source `<<` binds
tighter than `&`, so the constants are shifted and the value is only masked. -/
theorem convertRGB656ToRGB888_0xFFFF :
    convertRGB656ToRGB888 0xFFFF = 0xFCF8 ∧ spec_to24Bit 0xFFFF = 0xF8FCF8 ∧
      convertRGB656ToRGB888 0xFFFF ≠ spec_to24Bit 0xFFFF := by
  decide

/-- C9: after `convertRGB888ToRGB565` then `convertRGB656ToRGB888` the low three
bits of the red and blue bytes and the low two bits of the green byte are zero:
the result has no bit in common with `0x070307`. -/
theorem roundtrip_low_bits_zero (v : Nat) :
    convertRGB656ToRGB888 (convertRGB888ToRGB565 v) &&& 0x070307 = 0 := by
  rw [convertRGB656ToRGB888_eq_mask, Nat.and_assoc]
  exact Nat.and_zero _

/-! ## Colour codec: hexadecimal text -/

theorem convertHTMLtoRGB888_hash (s : List Char) :
    convertHTMLtoRGB888 (some ('#' :: s)) = strtoul s 16 := by
  simp [convertHTMLtoRGB888, ISNULLSTRING]

theorem convertHTMLtoRGB888_no_hash (c : Char) (t : List Char) (hc : c ≠ '#') :
    convertHTMLtoRGB888 (some (c :: t)) = strtoul (c :: t) 16 := by
  simp [convertHTMLtoRGB888, ISNULLSTRING, hc]

theorem isHexDigit_ne_hash (c : Char) (hc : isHexDigit c = true) : c ≠ '#' := by
  intro h
  subst h
  revert hc
  decide

theorem isHexDigit_range (c : Char) (hc : isHexDigit c = true) :
    (48 ≤ c.toNat ∧ c.toNat ≤ 57) ∨ (65 ≤ c.toNat ∧ c.toNat ≤ 70) ∨
      (97 ≤ c.toNat ∧ c.toNat ≤ 102) := by
  simp only [isHexDigit, Bool.or_eq_true, Bool.and_eq_true, decide_eq_true_eq] at hc
  tauto

theorem isHexDigit_digitValue (c : Char) (hc : isHexDigit c = true) :
    ∃ d, digitValue c = some d ∧ d < 16 := by
  rcases isHexDigit_range c hc with h | h | h
  · exact ⟨c.toNat - 48, by simp [digitValue, h], by omega⟩
  · have h1 : ¬ (48 ≤ c.toNat ∧ c.toNat ≤ 57) := by omega
    have h2 : 65 ≤ c.toNat ∧ c.toNat ≤ 90 := by omega
    exact ⟨c.toNat - 55, by simp only [digitValue, h1, h2, if_false, and_self, if_true], by omega⟩
  · have h1 : ¬ (48 ≤ c.toNat ∧ c.toNat ≤ 57) := by omega
    have h2 : ¬ (65 ≤ c.toNat ∧ c.toNat ≤ 90) := by omega
    have h3 : 97 ≤ c.toNat ∧ c.toNat ≤ 122 := by omega
    exact ⟨c.toNat - 87,
      by simp only [digitValue, h1, h2, h3, if_false, and_self, if_true], by omega⟩

theorem isHexDigit_not_isspace (c : Char) (hc : isHexDigit c = true) : isspace c = false := by
  have hr := isHexDigit_range c hc
  have hsp : c ≠ ' ' := by
    intro h
    subst h
    revert hc
    decide
  simp only [isspace, Bool.or_eq_false_iff, decide_eq_false_iff_not, Bool.and_eq_false_imp,
    decide_eq_true_eq]
  exact ⟨hsp, fun h => by omega⟩

theorem isHexDigit_not_sign (c : Char) (hc : isHexDigit c = true) : c ≠ '-' ∧ c ≠ '+' := by
  constructor <;>
  · intro h
    subst h
    revert hc
    decide

theorem isHexDigit_not_x (c : Char) (hc : isHexDigit c = true) : ¬ (c = 'x' ∨ c = 'X') := by
  rintro (h | h) <;>
  · subst h
    revert hc
    decide

theorem le_hexValueFrom (s : List Char) (acc : Nat) : acc ≤ hexValueFrom acc s := by
  induction s generalizing acc with
  | nil => simp [hexValueFrom]
  | cons c t ih =>
    have := ih (acc * 16 + (digitValue c).getD 0)
    simp only [hexValueFrom, List.foldl_cons] at this ⊢
    omega

/-- Once the digit loop has recorded an overflow it keeps it. -/
theorem strtoul_digits_overflowed (base : Nat) (s : List Char) (acc : Nat) (any : Int)
    (hany : any < 0) : (strtoul_digits base s acc any).2 < 0 := by
  induction s generalizing acc any with
  | nil => simpa [strtoul_digits] using hany
  | cons c t ih =>
    unfold strtoul_digits
    cases hd : digitValue c with
    | none => simpa using hany
    | some d =>
      by_cases hb : base ≤ d
      · simpa [hb] using hany
      · simp only [hb, if_false, hany, true_or, if_true]
        exact ih acc (-1) (by decide)

/-- The digit loop in base 16 on hexadecimal digits: the positional value while
it fits an `unsigned long`, the overflow mark otherwise. -/
theorem strtoul_digits_hex (s : List Char) (acc : Nat) (any : Int)
    (hhex : ∀ c ∈ s, isHexDigit c = true) (hany : 0 ≤ any) (hacc : acc ≤ ULONG_MAX) :
    (hexValueFrom acc s ≤ ULONG_MAX →
        (strtoul_digits 16 s acc any).1 = hexValueFrom acc s ∧
          0 ≤ (strtoul_digits 16 s acc any).2) ∧
      (ULONG_MAX < hexValueFrom acc s → (strtoul_digits 16 s acc any).2 < 0) := by
  induction s generalizing acc any with
  | nil =>
    simp only [strtoul_digits, hexValueFrom, List.foldl_nil]
    exact ⟨fun _ => ⟨trivial, hany⟩, fun h => absurd hacc (by omega)⟩
  | cons c t ih =>
    obtain ⟨d, hd, hd16⟩ := isHexDigit_digitValue c (hhex c (List.mem_cons_self c t))
    have hhex2 : ∀ c ∈ t, isHexDigit c = true := fun x hx => hhex x (List.mem_cons_of_mem c hx)
    have hcut : ULONG_MAX / 16 = 268435455 := by decide
    have hlim : ULONG_MAX % 16 = 15 := by decide
    have hmax : ULONG_MAX = 4294967295 := by decide
    have hval : hexValueFrom acc (c :: t) = hexValueFrom (acc * 16 + d) t := by
      simp [hexValueFrom, hd]
    have hnany : ¬ any < 0 := by omega
    unfold strtoul_digits
    simp only [hd, show ¬ (16 ≤ d) by omega, if_false, hnany, false_or, hcut, hlim, hval]
    by_cases hov : 268435455 < acc
    · simp only [hov, true_or, if_true]
      have hmono := le_hexValueFrom t (acc * 16 + d)
      refine ⟨fun h => absurd h (by omega), fun _ => ?_⟩
      exact strtoul_digits_overflowed 16 t acc (-1) (by decide)
    · have hno : ¬ (268435455 < acc ∨ (acc = 268435455 ∧ 15 < d)) := by omega
      simp only [hno, if_false]
      exact ih (acc * 16 + d) 1 hhex2 (by decide) (by omega)

/-- The routine `strtoul(s, NULL, 16)` on a string of hexadecimal digits: its
base-16 value, capped at `ULONG_MAX`. -/
theorem strtoul_hex (s : List Char) (hhex : ∀ c ∈ s, isHexDigit c = true) :
    strtoul s 16 = min (hexValue s) ULONG_MAX := by
  have hdig := strtoul_digits_hex s 0 0 hhex (le_refl 0) (Nat.zero_le _)
  have hpre : strtoul s 16 =
      if (strtoul_digits 16 s 0 0).2 < 0 then ULONG_MAX else (strtoul_digits 16 s 0 0).1 := by
    cases s with
    | nil => simp [strtoul, strtoul_sign, strtoul_radix]
    | cons c t =>
      have hc := hhex c (List.mem_cons_self c t)
      have hsp := isHexDigit_not_isspace c hc
      have hsg := isHexDigit_not_sign c hc
      have h1 : List.dropWhile isspace (c :: t) = c :: t := by
        simp [List.dropWhile, hsp]
      have h2 : strtoul_sign (c :: t) = (false, c :: t) := by
        simp [strtoul_sign, hsg.1, hsg.2]
      have h3 : strtoul_radix 16 (c :: t) = (c :: t, 16) := by
        cases t with
        | nil => simp [strtoul_radix]
        | cons x u =>
          have hx := isHexDigit_not_x x (hhex x (by simp))
          simp only [strtoul_radix]
          rw [if_neg (fun h => hx h.2.2)]
      simp only [strtoul, h1, h2, h3]
      simp
  rw [hpre]
  by_cases hfit : hexValue s ≤ ULONG_MAX
  · have := hdig.1 hfit
    rw [if_neg (by omega), this.1, Nat.min_eq_left hfit]
    rfl
  · have := hdig.2 (by unfold hexValue at hfit; omega)
    rw [if_pos this, Nat.min_eq_right (by omega)]

/-- C10: for a non-empty string `s` of hexadecimal digits, the text `#s` and the
text `s` convert to the same value: one leading `#` is dropped and the rest goes
to `strtoul(s, NULL, 16)`, which on such a string yields its base-16 value
(`ULONG_MAX` when that value does not fit an `unsigned long`). -/
theorem convertHTMLtoRGB888_hash_invariant (s : List Char) (hne : s ≠ [])
    (hhex : ∀ c ∈ s, isHexDigit c = true) :
    convertHTMLtoRGB888 (some ('#' :: s)) = convertHTMLtoRGB888 (some s) ∧
      convertHTMLtoRGB888 (some s) = strtoul s 16 ∧
      strtoul s 16 = min (hexValue s) ULONG_MAX := by
  cases s with
  | nil => exact absurd rfl hne
  | cons c t =>
    have hc : c ≠ '#' := isHexDigit_ne_hash c (hhex c (List.mem_cons_self c t))
    rw [convertHTMLtoRGB888_hash, convertHTMLtoRGB888_no_hash c t hc]
    exact ⟨rfl, rfl, strtoul_hex (c :: t) hhex⟩

/-- C10 at `s = "ff00ff"`: with or without the `#` the value is `0xff00ff`. -/
theorem convertHTMLtoRGB888_hash_invariant_witness :
    convertHTMLtoRGB888 (some ('#' :: ['f', 'f', '0', '0', 'f', 'f'])) =
        convertHTMLtoRGB888 (some ['f', 'f', '0', '0', 'f', 'f']) ∧
      convertHTMLtoRGB888 (some ['f', 'f', '0', '0', 'f', 'f']) =
        strtoul ['f', 'f', '0', '0', 'f', 'f'] 16 ∧
      strtoul ['f', 'f', '0', '0', 'f', 'f'] 16 =
        min (hexValue ['f', 'f', '0', '0', 'f', 'f']) ULONG_MAX :=
  convertHTMLtoRGB888_hash_invariant ['f', 'f', '0', '0', 'f', 'f'] (by decide) (by decide)

/-! ## Colour codec: text that is not all hexadecimal digits -/

/-- A character that is not a hexadecimal digit ends the base-16 digit loop. -/
theorem digitValue_of_not_isHexDigit (c : Char) (hc : isHexDigit c = false) :
    digitValue c = none ∨ ∃ d, digitValue c = some d ∧ 16 ≤ d := by
  simp only [isHexDigit, Bool.or_eq_false_iff, Bool.and_eq_false_imp, decide_eq_true_eq,
    decide_eq_false_iff_not] at hc
  obtain ⟨⟨h1, h2⟩, h3⟩ := hc
  by_cases a : 48 ≤ c.toNat ∧ c.toNat ≤ 57
  · exact absurd a.2 (h1 a.1)
  · by_cases b : 65 ≤ c.toNat ∧ c.toNat ≤ 90
    · right
      refine ⟨c.toNat - 55, by simp only [digitValue, a, b, if_false, and_self, if_true], ?_⟩
      have := h2 b.1
      omega
    · by_cases d : 97 ≤ c.toNat ∧ c.toNat ≤ 122
      · right
        refine ⟨c.toNat - 87,
          by simp only [digitValue, a, b, d, if_false, and_self, if_true], ?_⟩
        have := h3 d.1
        omega
      · left
        simp only [digitValue, a, b, d, if_false]

theorem strtoul_digits_stop (c : Char) (rest : List Char) (acc : Nat) (any : Int)
    (hc : isHexDigit c = false) : strtoul_digits 16 (c :: rest) acc any = (acc, any) := by
  unfold strtoul_digits
  rcases digitValue_of_not_isHexDigit c hc with h | ⟨d, h, hd⟩
  · simp [h]
  · simp [h, hd]

/-- The digit loop reads the same from `p ++ c :: rest` as from `p` when `c` is
not a hexadecimal digit. -/
theorem strtoul_digits_append_stop (p : List Char) (c : Char) (rest : List Char) (acc : Nat)
    (any : Int) (hc : isHexDigit c = false) :
    strtoul_digits 16 (p ++ c :: rest) acc any = strtoul_digits 16 p acc any := by
  induction p generalizing acc any with
  | nil =>
    rw [List.nil_append, strtoul_digits_stop c rest acc any hc]
    simp [strtoul_digits]
  | cons x p ih =>
    rw [List.cons_append]
    unfold strtoul_digits
    cases digitValue x with
    | none => rfl
    | some d =>
      simp only
      split_ifs
      · rfl
      · exact ih acc (-1)
      · exact ih (acc * 16 + d) 1

/-- The routine `strtoul(s, NULL, 16)` on a text that starts with neither white
space nor a sign and has no `0x` to skip: the outcome of the digit loop. -/
theorem strtoul_of_plain_start (a : Char) (u : List Char) (hsp : isspace a = false)
    (hminus : a ≠ '-') (hplus : a ≠ '+')
    (hrad : strtoul_radix 16 (a :: u) = (a :: u, 16)) :
    strtoul (a :: u) 16 =
      if (strtoul_digits 16 (a :: u) 0 0).2 < 0 then ULONG_MAX
      else (strtoul_digits 16 (a :: u) 0 0).1 := by
  have h1 : List.dropWhile isspace (a :: u) = a :: u := by
    simp [List.dropWhile, hsp]
  have h2 : strtoul_sign (a :: u) = (false, a :: u) := by
    simp [strtoul_sign, hminus, hplus]
  simp only [strtoul, h1, h2, hrad]
  simp

/-- The outcome of the base-16 digit loop on hexadecimal digits, read the way
`strtoul` reads it: the value, capped at `ULONG_MAX`. -/
theorem strtoul_digits_hex_result (p : List Char) (hp : ∀ x ∈ p, isHexDigit x = true) :
    (if (strtoul_digits 16 p 0 0).2 < 0 then ULONG_MAX else (strtoul_digits 16 p 0 0).1) =
      min (hexValue p) ULONG_MAX := by
  have hdig := strtoul_digits_hex p 0 0 hp (le_refl 0) (Nat.zero_le _)
  by_cases hfit : hexValue p ≤ ULONG_MAX
  · have := hdig.1 hfit
    rw [if_neg (by omega), this.1, Nat.min_eq_left hfit]
    rfl
  · have := hdig.2 (by unfold hexValue at hfit; omega)
    rw [if_pos this, Nat.min_eq_right (by omega)]

/-- The routine `strtoul(text, NULL, 16)` on hexadecimal digits `p` followed by
a character `c` that is not one: the value of `p`, capped at `ULONG_MAX`,
provided `c` is not white space or a sign when `p` is empty, and `p ++ c` is
not `0x` or `0X`. -/
theorem strtoul_hex_then_invalid (p : List Char) (c : Char) (rest : List Char)
    (hp : ∀ x ∈ p, isHexDigit x = true) (hc : isHexDigit c = false)
    (hlead : p = [] → isspace c = false ∧ c ≠ '-' ∧ c ≠ '+')
    (hradix : p = ['0'] → c ≠ 'x' ∧ c ≠ 'X') :
    strtoul (p ++ c :: rest) 16 = min (hexValue p) ULONG_MAX := by
  cases p with
  | nil =>
    obtain ⟨hsp, hminus, hplus⟩ := hlead rfl
    have hzero : c ≠ '0' := by
      intro h
      subst h
      revert hc
      decide
    have hrad : strtoul_radix 16 (c :: rest) = (c :: rest, 16) := by
      cases rest with
      | nil => simp [strtoul_radix]
      | cons x u =>
        simp only [strtoul_radix]
        rw [if_neg (fun h => hzero h.2.1)]
    rw [List.nil_append, strtoul_of_plain_start c rest hsp hminus hplus hrad,
      strtoul_digits_stop c rest 0 0 hc]
    simp [hexValue, hexValueFrom]
  | cons a q =>
    have ha := hp a (List.mem_cons_self a q)
    have hsp := isHexDigit_not_isspace a ha
    have hsg := isHexDigit_not_sign a ha
    have hrad : strtoul_radix 16 (a :: q ++ c :: rest) = (a :: q ++ c :: rest, 16) := by
      cases q with
      | nil =>
        simp only [List.cons_append, List.nil_append, strtoul_radix]
        rw [if_neg]
        rintro ⟨_, h0, hx⟩
        subst h0
        have := hradix rfl
        rcases hx with hx | hx
        · exact this.1 hx
        · exact this.2 hx
      | cons y r =>
        have hy := isHexDigit_not_x y (hp y (by simp))
        simp only [List.cons_append, strtoul_radix]
        rw [if_neg (fun h => hy h.2.2)]
    rw [List.cons_append] at hrad ⊢
    rw [strtoul_of_plain_start a (q ++ c :: rest) hsp hsg.1 hsg.2 hrad,
      ← List.cons_append, strtoul_digits_append_stop (a :: q) c rest 0 0 hc]
    exact strtoul_digits_hex_result (a :: q) hp

/-- C11 (as stated, at the text `0x1F`): with `p = "0"`, `c = 'x'` and
`rest = "1F"` the parser does not stop at `x`; it takes `0x` as the radix mark
and returns `0x1F = 31`, not the value `0` of `p`. After white space or a sign
it reads on as well (`" ff"` gives 255, `"-1"` gives `ULONG_MAX`), and nine
digits exceed an `unsigned long` and give `ULONG_MAX`. -/
theorem convertHTMLtoRGB888_0x_counterexample :
    (['0'].all isHexDigit = true ∧ isHexDigit 'x' = false) ∧
      convertHTMLtoRGB888 (some ('#' :: (['0'] ++ 'x' :: ['1', 'F']))) = 31 ∧
      convertHTMLtoRGB888 (some (['0'] ++ 'x' :: ['1', 'F'])) = 31 ∧
      hexValue ['0'] = 0 ∧
      convertHTMLtoRGB888 (some ('#' :: (['0'] ++ 'x' :: ['1', 'F']))) ≠ hexValue ['0'] ∧
      convertHTMLtoRGB888 (some ('#' :: ([] ++ ' ' :: ['f', 'f']))) = 255 ∧
      convertHTMLtoRGB888 (some ('#' :: ([] ++ '-' :: ['1']))) = ULONG_MAX ∧
      convertHTMLtoRGB888
        (some ('#' :: (['1', '0', '0', '0', '0', '0', '0', '0', '0'] ++ 'g' :: []))) =
          ULONG_MAX := by
  decide

/-- C11 (amended): for a text `p ++ c ++ rest` (after the optional leading `#`)
with `p` hexadecimal digits and `c` not a hexadecimal digit, where `c` is
neither white space nor a sign when `p` is empty and `p ++ c` is neither `0x`
nor `0X`, `convertHTMLtoRGB888` returns the base-16 value of `p`, capped at
`ULONG_MAX` (so `0` when `p` is empty): parsing stops at `c`. -/
theorem convertHTMLtoRGB888_stops_at_invalid (p : List Char) (c : Char) (rest : List Char)
    (hp : ∀ x ∈ p, isHexDigit x = true) (hc : isHexDigit c = false)
    (hlead : p = [] → isspace c = false ∧ c ≠ '-' ∧ c ≠ '+')
    (hradix : p = ['0'] → c ≠ 'x' ∧ c ≠ 'X') :
    convertHTMLtoRGB888 (some ('#' :: (p ++ c :: rest))) = min (hexValue p) ULONG_MAX ∧
      ((p = [] → c ≠ '#') →
        convertHTMLtoRGB888 (some (p ++ c :: rest)) = min (hexValue p) ULONG_MAX) ∧
      (p = [] → convertHTMLtoRGB888 (some ('#' :: (p ++ c :: rest))) = 0) := by
  have hval := strtoul_hex_then_invalid p c rest hp hc hlead hradix
  refine ⟨by rw [convertHTMLtoRGB888_hash, hval], fun hhash => ?_, fun hnil => ?_⟩
  · cases p with
    | nil =>
      rw [List.nil_append] at hval ⊢
      rw [convertHTMLtoRGB888_no_hash c rest (hhash rfl), hval]
    | cons a q =>
      have ha : a ≠ '#' := isHexDigit_ne_hash a (hp a (List.mem_cons_self a q))
      rw [List.cons_append] at hval ⊢
      rw [convertHTMLtoRGB888_no_hash a _ ha, hval]
  · rw [convertHTMLtoRGB888_hash, hval, hnil]
    simp [hexValue, hexValueFrom]

/-- C11 (amended) at the text `12g4`: the value is `0x12`. -/
theorem convertHTMLtoRGB888_stops_at_invalid_witness :
    convertHTMLtoRGB888 (some ('#' :: (['1', '2'] ++ 'g' :: ['4']))) =
        min (hexValue ['1', '2']) ULONG_MAX ∧
      convertHTMLtoRGB888 (some (['1', '2'] ++ 'g' :: ['4'])) =
        min (hexValue ['1', '2']) ULONG_MAX ∧
      min (hexValue ['1', '2']) ULONG_MAX = 0x12 :=
  ⟨(convertHTMLtoRGB888_stops_at_invalid ['1', '2'] 'g' ['4'] (by decide) (by decide)
      (by intro h; cases h) (by intro h; cases h)).1,
   (convertHTMLtoRGB888_stops_at_invalid ['1', '2'] 'g' ['4'] (by decide) (by decide)
      (by intro h; cases h) (by intro h; cases h)).2.1 (by intro h; cases h),
   by decide⟩

/-- C12: `convertHTMLtoRGB888` returns `0` for the null pointer and for the
empty string, and so does `convertHTMLRGB888ToRGB565`; for the empty string the
parser itself would give `0` as well. -/
theorem convertHTMLtoRGB888_null_or_empty :
    convertHTMLtoRGB888 none = 0 ∧ convertHTMLtoRGB888 (some []) = 0 ∧
      convertHTMLRGB888ToRGB565 none = 0 ∧ convertHTMLRGB888ToRGB565 (some []) = 0 ∧
      strtoul [] 16 = 0 := by
  refine ⟨rfl, rfl, ?_, ?_, ?_⟩
  · decide
  · decide
  · decide

/-! ## Colour codec: formatting as hexadecimal text -/

theorem hexDigitChar_spec (d : Nat) (hd : d < 16) :
    isLowerHexDigit (hexDigitChar d) = true ∧ isHexDigit (hexDigitChar d) = true ∧
      digitValue (hexDigitChar d) = some d := by
  interval_cases d <;> decide

theorem hexDigitsN_length (k n : Nat) : (hexDigitsN k n).length = k := by
  induction k generalizing n with
  | zero => rfl
  | succ k ih => simp [hexDigitsN, ih]

theorem hexDigitsN_chars (k n : Nat) :
    ∀ c ∈ hexDigitsN k n, isLowerHexDigit c = true ∧ isHexDigit c = true := by
  induction k generalizing n with
  | zero => simp [hexDigitsN]
  | succ k ih =>
    intro c hc
    simp only [hexDigitsN, List.mem_append, List.mem_singleton] at hc
    rcases hc with hc | hc
    · exact ih _ c hc
    · subst hc
      have := hexDigitChar_spec (n % 16) (Nat.mod_lt _ (by norm_num))
      exact ⟨this.1, this.2.1⟩

/-- Reading back the `k` digits written for `n` gives `n` modulo `16^k`. -/
theorem hexValueFrom_hexDigitsN (k n acc : Nat) :
    hexValueFrom acc (hexDigitsN k n) = acc * 16 ^ k + n % 16 ^ k := by
  induction k generalizing n with
  | zero => simp [hexDigitsN, hexValueFrom, Nat.mod_one]
  | succ k ih =>
    have hd := (hexDigitChar_spec (n % 16) (Nat.mod_lt _ (by norm_num))).2.2
    have hrec := ih (n / 16)
    simp only [hexValueFrom] at hrec
    simp only [hexDigitsN, hexValueFrom, List.foldl_append, List.foldl_cons, List.foldl_nil,
      hrec, hd, Option.getD_some]
    rw [pow_succ' 16 k, Nat.mod_mul]
    ring

theorem printf_06x_shape (v : Nat) :
    6 ≤ (printf_06x v).length ∧ ∀ c ∈ printf_06x v, isLowerHexDigit c = true := by
  unfold printf_06x
  simp only
  split_ifs
  · exact ⟨by rw [hexDigitsN_length], fun c hc => (hexDigitsN_chars _ _ c hc).1⟩
  · exact ⟨by rw [hexDigitsN_length]; norm_num, fun c hc => (hexDigitsN_chars _ _ c hc).1⟩
  · exact ⟨by rw [hexDigitsN_length]; norm_num, fun c hc => (hexDigitsN_chars _ _ c hc).1⟩

/-- The text left in the 8-byte buffer: `#` and the first six digits. -/
theorem snprintf_hash_06x_shape (v : Nat) :
    ∃ ds, snprintf_hash_06x 8 v = '#' :: ds ∧ ds.length = 6 ∧
      ∀ c ∈ ds, isLowerHexDigit c = true := by
  have h := printf_06x_shape v
  refine ⟨(printf_06x v).take 6, by simp [snprintf_hash_06x], ?_, ?_⟩
  · rw [List.length_take]
    omega
  · intro c hc
    exact h.2 c (List.mem_of_mem_take hc)

/-- C13: for every input (in particular every unsigned 32-bit one) the texts
returned by `convertRGB888oHTMLRGB888` and `convertRGB656ToHTMLRGB888` have
exactly 7 characters: `#` followed by 6 lowercase hexadecimal digits. -/
theorem html_text_has_seven_characters (v : Nat) :
    ((convertRGB888oHTMLRGB888 v).length = 7 ∧
        ∃ ds, convertRGB888oHTMLRGB888 v = '#' :: ds ∧ ds.length = 6 ∧
          ∀ c ∈ ds, isLowerHexDigit c = true) ∧
      ((convertRGB656ToHTMLRGB888 v).length = 7 ∧
        ∃ ds, convertRGB656ToHTMLRGB888 v = '#' :: ds ∧ ds.length = 6 ∧
          ∀ c ∈ ds, isLowerHexDigit c = true) := by
  constructor
  · obtain ⟨ds, h1, h2, h3⟩ := snprintf_hash_06x_shape v
    refine ⟨?_, ds, h1, h2, h3⟩
    rw [convertRGB888oHTMLRGB888, h1, List.length_cons, h2]
  · obtain ⟨ds, h1, h2, h3⟩ := snprintf_hash_06x_shape (convertRGB656ToRGB888 v)
    refine ⟨?_, ds, h1, h2, h3⟩
    rw [convertRGB656ToHTMLRGB888, h1, List.length_cons, h2]

/-- A value below `2^24` is written with exactly six digits, all kept. -/
theorem convertRGB888oHTMLRGB888_of_lt (v : Nat) (hv : v < 2 ^ 24) :
    convertRGB888oHTMLRGB888 v = '#' :: hexDigitsN 6 v := by
  have h32 : v % 2 ^ 32 = v := Nat.mod_eq_of_lt (by omega)
  have h6 : v < 16 ^ 6 := by norm_num at hv ⊢; exact hv
  have hlen := hexDigitsN_length 6 v
  simp only [convertRGB888oHTMLRGB888, snprintf_hash_06x, printf_06x, h32, h6, if_true]
  rw [List.take_of_length_le]
  simp [hlen]

/-- C19: for every `v < 2^24`, parsing the text that `convertRGB888oHTMLRGB888`
writes for `v` gives `v` back. -/
theorem convertHTMLtoRGB888_convertRGB888oHTMLRGB888 (v : Nat) (hv : v < 2 ^ 24) :
    convertHTMLtoRGB888 (some (convertRGB888oHTMLRGB888 v)) = v := by
  rw [convertRGB888oHTMLRGB888_of_lt v hv, convertHTMLtoRGB888_hash,
    strtoul_hex _ (fun c hc => (hexDigitsN_chars 6 v c hc).2)]
  have hval : hexValue (hexDigitsN 6 v) = v := by
    rw [hexValue, hexValueFrom_hexDigitsN, Nat.mod_eq_of_lt (by norm_num at hv ⊢; exact hv)]
    simp
  rw [hval]
  exact Nat.min_eq_left (by unfold ULONG_MAX; omega)

/-- C19 at `v = 0xabcdef`: the text `#abcdef` parses back to `0xabcdef`. -/
theorem convertHTMLtoRGB888_convertRGB888oHTMLRGB888_witness :
    convertHTMLtoRGB888 (some (convertRGB888oHTMLRGB888 0xabcdef)) = 0xabcdef :=
  convertHTMLtoRGB888_convertRGB888oHTMLRGB888 0xabcdef (by norm_num)

/-! ## Colour codec: native colour to text and back -/

theorem testBit_mask_0xF800 (i : Nat) : Nat.testBit 0xF800 i = decide (11 ≤ i ∧ i < 16) := by
  by_cases hi : i < 16
  · interval_cases i <;> decide
  · have h : (0xF800 : Nat) < 2 ^ i :=
      lt_of_lt_of_le (by norm_num) (Nat.pow_le_pow_right (by norm_num) (Nat.le_of_not_lt hi))
    rw [Nat.testBit_lt_two_pow h]
    simp
    omega

theorem testBit_mask_0x07E0 (i : Nat) : Nat.testBit 0x07E0 i = decide (5 ≤ i ∧ i < 11) := by
  by_cases hi : i < 11
  · interval_cases i <;> decide
  · have h : (0x07E0 : Nat) < 2 ^ i :=
      lt_of_lt_of_le (by norm_num) (Nat.pow_le_pow_right (by norm_num) (Nat.le_of_not_lt hi))
    rw [Nat.testBit_lt_two_pow h]
    simp
    omega

theorem testBit_mask_0x001F (i : Nat) : Nat.testBit 0x001F i = decide (i < 5) := by
  by_cases hi : i < 5
  · interval_cases i <;> decide
  · have h : (0x001F : Nat) < 2 ^ i :=
      lt_of_lt_of_le (by norm_num) (Nat.pow_le_pow_right (by norm_num) (Nat.le_of_not_lt hi))
    rw [Nat.testBit_lt_two_pow h]
    simp
    omega

/-- With the expansion the specification describes, packing undoes expanding:
every 16-bit colour survives `spec_to24Bit` followed by
`convertRGB888ToRGB565`. -/
theorem convertRGB888ToRGB565_spec_to24Bit (c : Nat) (hc : c < 2 ^ 16) :
    convertRGB888ToRGB565 (spec_to24Bit c) = c := by
  apply Nat.eq_of_testBit_eq
  intro i
  rw [convertRGB888ToRGB565_testBit]
  simp only [spec_to24Bit, Nat.testBit_or, Nat.testBit_shiftLeft, Nat.testBit_and,
    testBit_mask_0xF800, testBit_mask_0x07E0, testBit_mask_0x001F]
  by_cases hi : i < 16
  · interval_cases i <;> simp
  · have h5 : ¬ i < 5 := by omega
    have h11 : ¬ i < 11 := by omega
    have hlt : c < 2 ^ i :=
      lt_of_lt_of_le hc (Nat.pow_le_pow_right (by norm_num) (Nat.le_of_not_lt hi))
    simp [h5, h11, hi, Nat.testBit_lt_two_pow hlt]

/-- C18 (evaluation at `0xFFFF`): the text written for the colour `0xFFFF` is
`#00fcf8`, and converting that text back gives `0x07FF`, not `0xFFFF`. The
cause is the expansion `convertRGB656ToRGB888`, which only masks its argument
(see `convertRGB656ToRGB888_eq_mask`). -/
theorem convertHTMLRGB888ToRGB565_roundtrip_0xFFFF :
    convertRGB656ToHTMLRGB888 0xFFFF = ['#', '0', '0', 'f', 'c', 'f', '8'] ∧
      convertHTMLRGB888ToRGB565 (some (convertRGB656ToHTMLRGB888 0xFFFF)) = 0x07FF ∧
      convertHTMLRGB888ToRGB565 (some (convertRGB656ToHTMLRGB888 0xFFFF)) ≠ 0xFFFF := by
  decide

/-! ## Selecting by index -/

theorem iterInc_le (l : List FontPtr) (it : Nat) (h : it ≤ l.length) :
    iterInc l it ≤ l.length := by
  unfold iterInc
  split_ifs <;> omega

theorem iterDec_le (l : List FontPtr) (it : Nat) (h : it ≤ l.length) :
    iterDec l it ≤ l.length := by
  unfold iterDec
  split_ifs <;> omega

theorem iterate_le (l : List FontPtr) (f : Nat → Nat)
    (hf : ∀ it, it ≤ l.length → f it ≤ l.length) (k it : Nat) (h : it ≤ l.length) :
    f^[k] it ≤ l.length := by
  induction k with
  | zero => simpa using h
  | succ k ih =>
    rw [Function.iterate_succ_apply']
    exact hf _ ih

/-- An iterator moved by `std::advance` still points into the list or at its
sentinel. -/
theorem advance_le (l : List FontPtr) (it : Nat) (n : Int) (h : it ≤ l.length) :
    advance l it n ≤ l.length := by
  unfold advance
  cases n with
  | ofNat k => exact iterate_le l _ (iterInc_le l) k it h
  | negSucc k => exact iterate_le l _ (iterDec_le l) (k + 1) it h

theorem deref_mem (l : List FontPtr) (it : Nat) (h : it < l.length) : deref l it ∈ l := by
  unfold deref
  rw [List.getD_eq_getElem _ _ h]
  exact List.getElem_mem h

theorem iterInc_iterate_from_begin (l : List FontPtr) (k : Nat) (h : k ≤ l.length) :
    (iterInc l)^[k] 0 = k := by
  induction k with
  | zero => rfl
  | succ k ih =>
    rw [Function.iterate_succ_apply', ih (by omega)]
    unfold iterInc
    rw [if_neg (by omega)]

/-- The one out-of-range index the guard `it != FontsList.end()` catches: the
index equal to the length of the catalog. -/
theorem SetSmallestFont_at_length (g : Globals) :
    SetSmallestFont (Int.ofNat g.FontsList.length) g = g := by
  simp [SetSmallestFont, advance, listBegin, listEnd,
    iterInc_iterate_from_begin g.FontsList g.FontsList.length (le_refl _)]

/-- C14 (evaluation at the catalog `[10, 20, 30]` with current `20`):
`SetSmallestFont(4)` selects the first font and `SetSmallestFont(-2)` the last
one, although both indices are out of range; only the indices `3` (the length)
and `-1` leave the state as it was. -/
theorem SetSmallestFont_out_of_range :
    scenarioRegistry.FontsList.length = 3 ∧ scenarioRegistry.CurrentFont = 20 ∧
      (SetSmallestFont 4 scenarioRegistry).CurrentFont = 10 ∧
      (SetSmallestFont (-2) scenarioRegistry).CurrentFont = 30 ∧
      SetSmallestFont 3 scenarioRegistry = scenarioRegistry ∧
      SetSmallestFont (-1) scenarioRegistry = scenarioRegistry := by
  decide

/-! ## Display bring-up -/

theorem displayInit_initialized (env : Env) (g : Globals) :
    (displayInit env g).initialized = true := by
  unfold displayInit
  by_cases h : g.initialized = true
  · simp [h]
  · simp [h, InitFontsTable, SetDefaultFont, SetFont, Globals.emit]

theorem displayInit_of_initialized (env : Env) (g : Globals) (h : g.initialized = true) :
    displayInit env g = g := by
  simp [displayInit, h]

theorem displayInit_iterate (env : Env) (g : Globals) (n : Nat) :
    (displayInit env)^[n + 1] g = displayInit env g := by
  induction n with
  | zero => rfl
  | succ n ih =>
    rw [Function.iterate_succ_apply', ih]
    exact displayInit_of_initialized env _ (displayInit_initialized env g)

/-- C16: for every `n ≥ 1`, `n` consecutive `displayInit()` calls from the
initial state leave the same state as one call: `initialized` is true, the
catalog is `[TomThumb, FreeSansBold9pt7b, FreeSansBold12pt7b]` (so not empty)
and the current font is the default font; a call made when `initialized` is
already true changes nothing. -/
theorem displayInit_once (env : Env) (n : Nat) (hn : 1 ≤ n) :
    (displayInit env)^[n] (Globals.initial env) = displayInit env (Globals.initial env) ∧
      (displayInit env (Globals.initial env)).initialized = true ∧
      (displayInit env (Globals.initial env)).FontsList =
        [env.TomThumb, env.FreeSansBold9pt7b, env.FreeSansBold12pt7b] ∧
      (displayInit env (Globals.initial env)).FontsList ≠ [] ∧
      (displayInit env (Globals.initial env)).CurrentFont =
        (displayInit env (Globals.initial env)).DefaultFont ∧
      (∀ g, g.initialized = true → displayInit env g = g) := by
  obtain ⟨m, rfl⟩ : ∃ m, n = m + 1 := ⟨n - 1, by omega⟩
  have hlist : (displayInit env (Globals.initial env)).FontsList =
      [env.TomThumb, env.FreeSansBold9pt7b, env.FreeSansBold12pt7b] := by
    simp [displayInit, Globals.initial, InitFontsTable, SetDefaultFont, SetFont, Globals.emit]
  refine ⟨displayInit_iterate env _ m, displayInit_initialized env _, hlist, ?_, ?_,
    fun g hg => displayInit_of_initialized env g hg⟩
  · rw [hlist]
    simp
  · simp [displayInit, Globals.initial, InitFontsTable, SetDefaultFont, SetFont, Globals.emit]

/-- C16 at `n = 3` in the sample environment. -/
theorem displayInit_once_witness :
    (displayInit sampleEnv)^[3] (Globals.initial sampleEnv) =
        displayInit sampleEnv (Globals.initial sampleEnv) ∧
      (displayInit sampleEnv (Globals.initial sampleEnv)).FontsList = [1, 2, 3] :=
  ⟨(displayInit_once sampleEnv 3 (by decide)).1, (displayInit_once sampleEnv 3 (by decide)).2.2.1⟩

/-! ## Membership of the current font in the catalog -/

theorem runFontOps_cons (env : Env) (op : FontOp) (ops : List FontOp) (g : Globals) :
    runFontOps env (op :: ops) g = runFontOps env ops (op.apply env g) := rfl

/-- One selection call keeps the catalog and the default font, and leaves the
current font inside the catalog. -/
theorem fontOp_apply_keeps_member (env : Env) (op : FontOp) (g : Globals)
    (hop : op.selectsWithin g.FontsList = true) (hne : g.FontsList ≠ [])
    (hdef : g.DefaultFont ∈ g.FontsList) (hcur : g.CurrentFont ∈ g.FontsList) :
    (op.apply env g).FontsList = g.FontsList ∧ (op.apply env g).DefaultFont = g.DefaultFont ∧
      (op.apply env g).CurrentFont ∈ g.FontsList := by
  have hlen : 0 < g.FontsList.length := List.length_pos.mpr hne
  cases op with
  | initFontsTable => simp [FontOp.selectsWithin] at hop
  | setFont newFont =>
    simp only [FontOp.selectsWithin, decide_eq_true_eq] at hop
    exact ⟨rfl, rfl, hop⟩
  | setDefaultFont => exact ⟨rfl, rfl, hdef⟩
  | setSmallestFont whichOne =>
    have hit := advance_le g.FontsList (listBegin g.FontsList) whichOne (Nat.zero_le _)
    show (SetSmallestFont whichOne g).FontsList = g.FontsList ∧
      (SetSmallestFont whichOne g).DefaultFont = g.DefaultFont ∧
      (SetSmallestFont whichOne g).CurrentFont ∈ g.FontsList
    unfold SetSmallestFont
    simp only [listEnd]
    split_ifs with hend
    · exact ⟨rfl, rfl, deref_mem _ _ (by omega)⟩
    · exact ⟨rfl, rfl, hcur⟩
  | setLargestFont =>
    refine ⟨rfl, rfl, ?_⟩
    simp only [FontOp.apply, SetLargestFont, SetFont_CurrentFont, listEnd, iterDec]
    rw [if_neg (by omega)]
    exact deref_mem _ _ (by omega)
  | setSmallerFont =>
    simp only [FontOp.apply, SetSmallerFont_eq]
    split_ifs with h
    · exact ⟨rfl, rfl, deref_mem _ _ (by omega)⟩
    · exact ⟨rfl, rfl, hcur⟩
  | setLargerFont =>
    simp only [FontOp.apply, SetLargerFont_eq]
    split_ifs with h
    · exact ⟨rfl, rfl, deref_mem _ _ h⟩
    · exact ⟨rfl, rfl, hcur⟩

theorem runFontOps_keeps_member (env : Env) (ops : List FontOp) (g : Globals)
    (hops : ∀ op ∈ ops, op.selectsWithin g.FontsList = true) (hne : g.FontsList ≠ [])
    (hdef : g.DefaultFont ∈ g.FontsList) (hcur : g.CurrentFont ∈ g.FontsList) :
    (runFontOps env ops g).FontsList = g.FontsList ∧
      (runFontOps env ops g).CurrentFont ∈ g.FontsList := by
  induction ops generalizing g with
  | nil => exact ⟨rfl, hcur⟩
  | cons op ops ih =>
    obtain ⟨h1, h2, h3⟩ :=
      fontOp_apply_keeps_member env op g (hops op (List.mem_cons_self op ops)) hne hdef hcur
    rw [runFontOps_cons]
    have := ih (op.apply env g)
      (fun o ho => by rw [h1]; exact hops o (List.mem_cons_of_mem op ho))
      (by rw [h1]; exact hne) (by rw [h1, h2]; exact hdef) (by rw [h1]; exact h3)
    rw [h1] at this
    exact this

theorem InitFontsTable_fields (env : Env) (g : Globals) :
    (InitFontsTable env g).FontsList =
        g.FontsList ++ [env.TomThumb, env.FreeSansBold9pt7b, env.FreeSansBold12pt7b] ∧
      (InitFontsTable env g).CurrentFont = g.DefaultFont ∧
      (InitFontsTable env g).DefaultFont = g.DefaultFont := by
  simp [InitFontsTable, SetDefaultFont, SetFont, Globals.emit]

/-- C15 (as stated, in the sample environment): after `InitFontsTable` the
current font is in the catalog `[1, 2, 3]`, and the call `SetFont(99)` makes a
font current that is not. -/
theorem SetFont_leaves_catalog_counterexample :
    (InitFontsTable sampleEnv (Globals.initial sampleEnv)).CurrentFont ∈
        (InitFontsTable sampleEnv (Globals.initial sampleEnv)).FontsList ∧
      (runFontOps sampleEnv [FontOp.setFont 99]
        (InitFontsTable sampleEnv (Globals.initial sampleEnv))).FontsList = [1, 2, 3] ∧
      (runFontOps sampleEnv [FontOp.setFont 99]
        (InitFontsTable sampleEnv (Globals.initial sampleEnv))).CurrentFont = 99 ∧
      (runFontOps sampleEnv [FontOp.setFont 99]
        (InitFontsTable sampleEnv (Globals.initial sampleEnv))).CurrentFont ∉
        (runFontOps sampleEnv [FontOp.setFont 99]
          (InitFontsTable sampleEnv (Globals.initial sampleEnv))).FontsList := by
  decide

/-- C15 (amended): when the default font is a font of the catalog, then once
`InitFontsTable` has run the current font is a member of the catalog (which
stays as it is) in every state reached by any sequence of `SetDefaultFont`,
`SetSmallestFont`, `SetLargestFont`, `SetSmallerFont`, `SetLargerFont` calls
and `SetFont` calls whose argument is a font of the catalog. -/
theorem CurrentFont_mem_after_selections (env : Env) (g : Globals) (ops : List FontOp)
    (hdef : g.DefaultFont ∈ (InitFontsTable env g).FontsList)
    (hops : ∀ op ∈ ops, op.selectsWithin (InitFontsTable env g).FontsList = true) :
    (runFontOps env ops (InitFontsTable env g)).CurrentFont ∈
        (runFontOps env ops (InitFontsTable env g)).FontsList ∧
      (runFontOps env ops (InitFontsTable env g)).FontsList =
        (InitFontsTable env g).FontsList := by
  obtain ⟨hl, hc, hd⟩ := InitFontsTable_fields env g
  have hne : (InitFontsTable env g).FontsList ≠ [] := by
    rw [hl]
    simp
  have := runFontOps_keeps_member env ops (InitFontsTable env g) hops hne
    (by rw [hd]; exact hdef) (by rw [hc]; exact hdef)
  exact ⟨by rw [this.1]; exact this.2, this.1⟩

/-- C15 (amended) in the sample environment, for a sequence that uses each of
the six functions. -/
theorem CurrentFont_mem_after_selections_witness :
    (runFontOps sampleEnv
        [FontOp.setSmallestFont 1, FontOp.setLargerFont, FontOp.setFont 1,
          FontOp.setLargestFont, FontOp.setSmallerFont, FontOp.setDefaultFont]
        (InitFontsTable sampleEnv (Globals.initial sampleEnv))).CurrentFont ∈
      (runFontOps sampleEnv
        [FontOp.setSmallestFont 1, FontOp.setLargerFont, FontOp.setFont 1,
          FontOp.setLargestFont, FontOp.setSmallerFont, FontOp.setDefaultFont]
        (InitFontsTable sampleEnv (Globals.initial sampleEnv))).FontsList :=
  (CurrentFont_mem_after_selections sampleEnv (Globals.initial sampleEnv)
    [FontOp.setSmallestFont 1, FontOp.setLargerFont, FontOp.setFont 1,
      FontOp.setLargestFont, FontOp.setSmallerFont, FontOp.setDefaultFont]
    (by decide) (by decide)).1

/-! ## Stepping at the ends of the catalog -/

theorem fontOp_apply_FontsList (env : Env) (op : FontOp) (g : Globals) :
    (op.apply env g).FontsList =
      if op = FontOp.initFontsTable then
        g.FontsList ++ [env.TomThumb, env.FreeSansBold9pt7b, env.FreeSansBold12pt7b]
      else g.FontsList := by
  cases op with
  | initFontsTable => simpa using (InitFontsTable_fields env g).1
  | setFont newFont => simp [FontOp.apply]
  | setDefaultFont => simp [FontOp.apply, SetDefaultFont]
  | setSmallestFont whichOne =>
    simp only [FontOp.apply, SetSmallestFont, reduceCtorEq, if_false]
    split_ifs <;> rfl
  | setLargestFont => simp [FontOp.apply, SetLargestFont]
  | setSmallerFont =>
    simp only [FontOp.apply, SetSmallerFont_eq, reduceCtorEq, if_false]
    split_ifs <;> rfl
  | setLargerFont =>
    simp only [FontOp.apply, SetLargerFont_eq, reduceCtorEq, if_false]
    split_ifs <;> rfl

/-- The catalog after a sequence of calls: one more copy of the three fonts for
every `InitFontsTable` in it. -/
theorem runFontOps_FontsList (env : Env) (ops : List FontOp) (g : Globals) :
    (runFontOps env ops g).FontsList =
      g.FontsList ++ (List.replicate (ops.count FontOp.initFontsTable)
        [env.TomThumb, env.FreeSansBold9pt7b, env.FreeSansBold12pt7b]).flatten := by
  induction ops generalizing g with
  | nil => simp [runFontOps]
  | cons op ops ih =>
    rw [runFontOps_cons, ih, fontOp_apply_FontsList]
    by_cases hop : op = FontOp.initFontsTable
    · subst hop
      rw [if_pos rfl, List.count_cons_self, List.replicate_succ, List.flatten_cons,
        List.append_assoc]
    · rw [if_neg hop, List.count_cons_of_ne (Ne.symm hop)]

theorem SetLargerFont_at_last (g : Globals) (hnd : g.FontsList.Nodup)
    (hlast : g.FontsList.getLast? = some g.CurrentFont) : SetLargerFont g = (false, g) := by
  rw [SetLargerFont_eq, if_neg]
  intro hstep
  rw [List.getLast?_eq_getElem?,
    List.getElem?_eq_getElem (show g.FontsList.length - 1 < g.FontsList.length by omega)]
    at hlast
  have := indexOf_eq_of_nodup g.FontsList hnd g.CurrentFont (g.FontsList.length - 1)
    (by omega) (by simpa using hlast)
  omega

theorem SetSmallerFont_at_head (g : Globals)
    (hhead : g.FontsList.head? = some g.CurrentFont) : SetSmallerFont g = (false, g) := by
  rw [SetSmallerFont_eq, if_neg]
  intro hstep
  cases hl : g.FontsList with
  | nil => simp [hl] at hhead
  | cons x rest =>
    rw [hl] at hhead hstep
    simp only [List.head?_cons, Option.some.injEq] at hhead
    rw [List.indexOf_cons_eq _ hhead] at hstep
    omega

/-- C17 (as stated, in the sample environment): after `InitFontsTable` has run
twice the catalog is `[1, 2, 3, 1, 2, 3]`; with the last entry `3` current
(`SetLargestFont`), `SetLargerFont` finds the first `3`, returns true and makes
`1` current. -/
theorem SetLargerFont_after_second_init_counterexample :
    (runFontOps sampleEnv
        [FontOp.initFontsTable, FontOp.initFontsTable, FontOp.setLargestFont]
        (Globals.initial sampleEnv)).FontsList = [1, 2, 3, 1, 2, 3] ∧
      (runFontOps sampleEnv
        [FontOp.initFontsTable, FontOp.initFontsTable, FontOp.setLargestFont]
        (Globals.initial sampleEnv)).CurrentFont = 3 ∧
      (runFontOps sampleEnv
        [FontOp.initFontsTable, FontOp.initFontsTable, FontOp.setLargestFont]
        (Globals.initial sampleEnv)).FontsList.getLast? =
        some (runFontOps sampleEnv
          [FontOp.initFontsTable, FontOp.initFontsTable, FontOp.setLargestFont]
          (Globals.initial sampleEnv)).CurrentFont ∧
      (SetLargerFont (runFontOps sampleEnv
        [FontOp.initFontsTable, FontOp.initFontsTable, FontOp.setLargestFont]
        (Globals.initial sampleEnv))).1 = true ∧
      (SetLargerFont (runFontOps sampleEnv
        [FontOp.initFontsTable, FontOp.initFontsTable, FontOp.setLargestFont]
        (Globals.initial sampleEnv))).2.CurrentFont = 1 := by
  decide

/-- C17 (amended): in every state reached from the initial state by a sequence
of `InitFontsTable`, `SetSmallestFont`, `SetLargestFont`, `SetSmallerFont` and
`SetLargerFont` calls, `SetSmallerFont` returns false and changes nothing when
the current font is the first entry of the catalog; and when `InitFontsTable`
occurs at most once in the sequence (the three font objects being distinct),
`SetLargerFont` returns false and changes nothing when the current font is the
last entry. -/
theorem stepping_stops_at_the_ends (env : Env) (ops : List FontOp)
    (_hops : ∀ op ∈ ops, op.isPositional = true) :
    ((runFontOps env ops (Globals.initial env)).FontsList.head? =
          some (runFontOps env ops (Globals.initial env)).CurrentFont →
        SetSmallerFont (runFontOps env ops (Globals.initial env)) =
          (false, runFontOps env ops (Globals.initial env))) ∧
      (ops.count FontOp.initFontsTable ≤ 1 →
        [env.TomThumb, env.FreeSansBold9pt7b, env.FreeSansBold12pt7b].Nodup →
        (runFontOps env ops (Globals.initial env)).FontsList.getLast? =
          some (runFontOps env ops (Globals.initial env)).CurrentFont →
        SetLargerFont (runFontOps env ops (Globals.initial env)) =
          (false, runFontOps env ops (Globals.initial env))) := by
  refine ⟨SetSmallerFont_at_head _, fun honce hdist hlast => ?_⟩
  apply SetLargerFont_at_last _ _ hlast
  rw [runFontOps_FontsList]
  have hcases : ops.count FontOp.initFontsTable = 0 ∨ ops.count FontOp.initFontsTable = 1 := by
    omega
  rcases hcases with h | h
  · rw [h]
    simp [Globals.initial]
  · rw [h]
    simpa [Globals.initial] using hdist

/-- C17 (amended) in the sample environment: after one `InitFontsTable` and
`SetLargestFont` the current font is the last entry and `SetLargerFont` changes
nothing; after `SetSmallestFont(0)` it is the first and `SetSmallerFont`
changes nothing. -/
theorem stepping_stops_at_the_ends_witness :
    SetLargerFont (runFontOps sampleEnv [FontOp.initFontsTable, FontOp.setLargestFont]
        (Globals.initial sampleEnv)) =
      (false, runFontOps sampleEnv [FontOp.initFontsTable, FontOp.setLargestFont]
        (Globals.initial sampleEnv)) ∧
    SetSmallerFont (runFontOps sampleEnv
        [FontOp.initFontsTable, FontOp.initFontsTable, FontOp.setSmallestFont 0]
        (Globals.initial sampleEnv)) =
      (false, runFontOps sampleEnv
        [FontOp.initFontsTable, FontOp.initFontsTable, FontOp.setSmallestFont 0]
        (Globals.initial sampleEnv)) :=
  ⟨(stepping_stops_at_the_ends sampleEnv [FontOp.initFontsTable, FontOp.setLargestFont]
      (by decide)).2 (by decide) (by decide) (by decide),
   (stepping_stops_at_the_ends sampleEnv
      [FontOp.initFontsTable, FontOp.initFontsTable, FontOp.setSmallestFont 0]
      (by decide)).1 (by decide)⟩

end FreeTouchDeck
